import Mathlib

/-!
Verification development for the EOS binding generator
(`eos_code_generator.py`).  The Python source is shallowly embedded:
Python strings become `String` (logically a `List Char` in this Lean
version), Python `dict`s (which preserve insertion order) become ordered
association lists, and Python functions that may raise (`IndexError`,
`KeyError`) return `Except String`.  Each embedded definition mirrors one
source function; source line numbers are cited in the doc comments.
-/

namespace EosGen

/-! ## Python string primitives

Faithful models of the Python `str` methods used by the generator:
`split`/`rsplit` (with and without `maxsplit`), `lstrip`/`rstrip`
(which strip a *set* of characters), `startswith`/`endswith`,
`removeprefix`/`removesuffix`, `in` (substring test), `replace`,
and `str.join`.  Splitting is implemented on `List Char` with fuel so
that every definition is structural and kernel-reducible. -/

/-- Leftmost, non-overlapping split of a character list on a non-empty
separator, fuelled by the length of the list (the fuel never runs out
when initialised with the length of the input). -/
def splitOnFuel (sep : List Char) : Nat → List Char → List (List Char)
  | _, [] => [[]]
  | 0, l => [l]
  | fuel + 1, c :: rest =>
    if sep.isPrefixOf (c :: rest) then
      [] :: splitOnFuel sep fuel ((c :: rest).drop sep.length)
    else
      match splitOnFuel sep fuel rest with
      | [] => [[c]]
      | p :: ps => (c :: p) :: ps

/-- Python `s.split(sep)` (no maxsplit). -/
def pySplitAll (s sep : String) : List String :=
  if sep.data.isEmpty then [s]
  else (splitOnFuel sep.data s.data.length s.data).map String.mk

/-- Python `sep.join(parts)` restricted to lists of character lists. -/
def joinWith (sep : List Char) (parts : List (List Char)) : List Char :=
  List.intercalate sep parts

/-- Python `s.split(sep, n)`: at most `n` splits, remainder kept whole. -/
def pySplitN (s sep : String) (n : Nat) : List String :=
  let ps := if sep.data.isEmpty then [s.data]
            else splitOnFuel sep.data s.data.length s.data
  if ps.length ≤ n + 1 then ps.map String.mk
  else (ps.take n).map String.mk ++ [String.mk (joinWith sep.data (ps.drop n))]

/-- Python `s.rsplit(sep, n)`: at most `n` splits counted from the right. -/
def pyRsplitN (s sep : String) (n : Nat) : List String :=
  let ps := if sep.data.isEmpty then [s.data]
            else splitOnFuel sep.data s.data.length s.data
  if ps.length ≤ n + 1 then ps.map String.mk
  else String.mk (joinWith sep.data (ps.take (ps.length - n)))
       :: (ps.drop (ps.length - n)).map String.mk

/-- Python `s.lstrip(chars)`: drop leading characters drawn from the
character *set* of `chars`. -/
def pyLstrip (s chars : String) : String :=
  ⟨s.data.dropWhile (chars.data.contains ·)⟩

/-- Python `s.rstrip(chars)`: drop trailing characters drawn from the
character *set* of `chars`. -/
def pyRstrip (s chars : String) : String :=
  ⟨(s.data.reverse.dropWhile (chars.data.contains ·)).reverse⟩

/-- Python `s.startswith(p)`. -/
def pyStartswith (s p : String) : Bool :=
  p.data.isPrefixOf s.data

/-- Python `s.endswith(p)`. -/
def pyEndswith (s p : String) : Bool :=
  p.data.isSuffixOf s.data

/-- Python `s.removeprefix(p)`. -/
def pyStripPre (s p : String) : String :=
  if p.data.isPrefixOf s.data then ⟨s.data.drop p.data.length⟩ else s

/-- Python `s.removesuffix(p)`. -/
def pyStripSuf (s p : String) : String :=
  if p.data.isSuffixOf s.data then ⟨s.data.take (s.data.length - p.data.length)⟩ else s

/-- Bool-valued infix test on character lists. -/
def listInfixB (sub : List Char) : List Char → Bool
  | [] => sub.isPrefixOf []
  | c :: rest => sub.isPrefixOf (c :: rest) || listInfixB sub rest

/-- Python `sub in s` (substring containment). -/
def pyIn (sub s : String) : Bool :=
  listInfixB sub.data s.data

/-- Python `s.replace(old, new)` for non-empty `old`. -/
def pyReplace (s old new : String) : String :=
  ⟨joinWith new.data (if old.data.isEmpty then [s.data]
                      else splitOnFuel old.data s.data.length s.data)⟩

/-- Python `list[i]`: raises `IndexError` when out of bounds. -/
def pyIndexE (l : List α) (n : Nat) : Except String α :=
  match l.get? n with
  | some a => Except.ok a
  | none => Except.error "IndexError"

/-- First element of a split result (always exists; default never used). -/
def headFirst (l : List String) : String :=
  l.headD ""

/-! ## Ordered association lists (insertion-ordered Python dicts) -/

/-- `d[k]` as an option (first binding wins, as in a dict). -/
def alistLookup : List (String × α) → String → Option α
  | [], _ => none
  | (k, v) :: t, key => if k = key then some v else alistLookup t key

/-- `d[k] = v`: overwrite in place if the key exists, else append
(insertion order preserved, as Python dicts do). -/
def alistInsert : List (String × α) → String → α → List (String × α)
  | [], k, v => [(k, v)]
  | (k', v') :: t, k, v =>
    if k' = k then (k', v) :: t else (k', v') :: alistInsert t k v

/-- `d.pop(k)`: raises `KeyError` when the key is absent. -/
def alistPop : List (String × α) → String → Except String (List (String × α))
  | [], _ => Except.error "KeyError"
  | (k', v') :: t, k =>
    if k' = k then Except.ok t else (alistPop t k).map ((k', v') :: ·)

/-- Update the value bound to `k` (no-op when the key is absent; used
only where the source guarantees presence). -/
def alistModify : List (String × α) → String → (α → α) → List (String × α)
  | [], _, _ => []
  | (k', v) :: t, k, f =>
    if k' = k then (k', f v) :: t else (k', v) :: alistModify t k f

/-- The keys of an association list, in order. -/
def alistKeys (l : List (String × α)) : List String :=
  l.map (·.1)

/-! ## Data model

Mirrors the dict shapes built by `_parse_file` and consumed by the
consolidation and classification passes. -/

/-- One `(type, name)` method or callback argument. -/
structure Arg where
  type : String
  name : String
deriving DecidableEq, Repr

/-- A method entry: `{"return": ..., "args": [...]}`. -/
structure MethodInfo where
  ret : String
  args : List Arg
deriving DecidableEq, Repr

/-- A callback entry: `{"return": ..., "args": [...]}`. -/
structure CallbackInfo where
  ret : String
  args : List Arg
deriving DecidableEq, Repr

/-- A handle entry: `{"methods": ..., "callbacks": ..., "enums": ...}`. -/
structure HandleInfo where
  methods : List (String × MethodInfo)
  callbacks : List (String × CallbackInfo)
  enums : List (String × List String)
deriving DecidableEq, Repr

/-- The per-file tables produced by the scanner:
`{"handles", "methods", "callbacks", "structs", "enums"}`.
A struct is an ordered field-name-to-field-type table. -/
structure FileInfo where
  handles : List (String × HandleInfo)
  methods : List (String × MethodInfo)
  callbacks : List (String × CallbackInfo)
  structs : List (String × List (String × String))
  enums : List (String × List String)
deriving DecidableEq, Repr

/-- Snapshot of the module-level tables read by the role classifiers
(`handles`, `unhandled_methods`, `unhandled_callbacks`, `structs`,
source lines 29-38). -/
structure Model where
  handles : List (String × HandleInfo)
  unhandledMethods : List (String × MethodInfo)
  unhandledCallbacks : List (String × CallbackInfo)
  structs : List (String × List (String × String))
deriving DecidableEq, Repr

/-- The four capability flags kept per struct in
`struct2additional_method_requirements` (source lines 1394-1399):
the fields model the dict keys `set_from`, `from`, `set_to`, `to`. -/
structure Req where
  setFrom : Bool
  fromFlag : Bool
  setTo : Bool
  toFlag : Bool
deriving DecidableEq, Repr

/-- The all-false initial entry (source lines 1394-1399). -/
def Req.init : Req := ⟨false, false, false, false⟩

/-! ## Type decay and name utilities -/

/-- `_decay_eos_type` (source lines 1881-1892):
`t.lstrip("const").lstrip(" ").rstrip("*").rstrip("&").rstrip("*")
 .rstrip("&").lstrip(" ").rstrip(" ")`.
Note `lstrip("const")` strips the character *set* `{c,o,n,s,t}`. -/
def decayEosType (t : String) : String :=
  pyRstrip (pyLstrip (pyRstrip (pyRstrip (pyRstrip (pyRstrip
    (pyLstrip (pyLstrip t "const") " ") "*") "&") "*") "&") " ") " "

/-- `to_snake_case` (source lines 1257-1270): insert an underscore in
front of every uppercase character while lowercasing it, strip leading
underscores, then apply the fixed chain of replacements. -/
def toSnakeCase (text : String) : String :=
  let snake : String :=
    ⟨text.data.foldr (fun c acc =>
      if c.isUpper then '_' :: c.toLower :: acc else c :: acc) []⟩
  pyReplace (pyReplace (pyReplace (pyReplace (pyReplace (pyReplace (pyReplace
    (pyLstrip snake "_")
    "u_r_i" "uri") "b_is" "is") "r_t_c" "rtc") "u_i_" "ui_")
    "k_w_s" "kws") "p2_p_" "p2p_") "n_a_t" "nat"

/-- `_is_internal_struct_arr_field` (source lines 1927-1938): the fixed
allow-list of (field type, field name) pairs treated as struct arrays. -/
def isInternalStructArrField (type field : String) : Bool :=
  (type = "const EOS_Stats_IngestData*" && field = "Stats") ||
  (type = "const EOS_PresenceModification_DataRecordId*" && field = "Records") ||
  (type = "const EOS_Presence_DataRecord*" && field = "Records") ||
  (type = "const EOS_Leaderboards_UserScoresQueryStatInfo*" && field = "StatInfo") ||
  (type = "const EOS_Ecom_CheckoutEntry*" && field = "Entries") ||
  (type = "const EOS_AntiCheatCommon_RegisterEventParamDef*" && field = "ParamDefs") ||
  (type = "const EOS_AntiCheatCommon_LogEventParamPair*" && field = "Params")

/-! ## Role classifiers (source lines 1273-1388)

Each classifier scans the consolidated tables held in a `Model`. -/

/-- `__is_arg_out_struct` (source lines 1273-1289): some handle method or
unhandled method has an argument of this struct type named with the
`Out` prefix. -/
def isArgOutStruct (M : Model) (structType : String) : Bool :=
  M.handles.any (fun h =>
    h.2.methods.any (fun m =>
      m.2.args.any (fun a =>
        decayEosType a.type = structType && pyStartswith a.name "Out"))) ||
  M.unhandledMethods.any (fun m =>
    m.2.args.any (fun a =>
      decayEosType a.type = structType && pyStartswith a.name "Out"))

/-- `__is_input_struct` (source lines 1292-1318): some non-release
method (handle-owned or unhandled) has a non-`Out` argument of this
struct type.  Release methods are those whose *name* ends in
`Release`. -/
def isInputStruct (M : Model) (structType : String) : Bool :=
  M.handles.any (fun h =>
    h.2.methods.any (fun m =>
      !pyEndswith m.1 "Release" &&
      m.2.args.any (fun a =>
        decayEosType a.type = structType && !pyStartswith a.name "Out"))) ||
  M.unhandledMethods.any (fun m =>
    !pyEndswith m.1 "Release" &&
    m.2.args.any (fun a =>
      decayEosType a.type = structType && !pyStartswith a.name "Out"))

/-- `__is_output_struct` (source lines 1321-1340): the struct is a method
return type (handle-owned or unhandled) or a callback argument type
(handle-owned or unhandled). -/
def isOutputStruct (M : Model) (structType : String) : Bool :=
  M.handles.any (fun h =>
    h.2.methods.any (fun m => decayEosType m.2.ret = structType) ||
    h.2.callbacks.any (fun c =>
      c.2.args.any (fun a => decayEosType a.type = structType))) ||
  M.unhandledMethods.any (fun m => decayEosType m.2.ret = structType) ||
  M.unhandledCallbacks.any (fun c =>
    c.2.args.any (fun a => decayEosType a.type = structType))

/-- The `r_owned_structs` list built by `__is_internal_struct` (source
lines 1343-1354): every struct owning a scalar (non-allow-list) field
whose decayed type is `structType`, in struct-table order, without
duplicates. -/
def containersOf (M : Model) (structType : String) : List String :=
  M.structs.foldl (fun acc st =>
    st.2.foldl (fun acc2 fld =>
      if !acc2.contains st.1 &&
         !isInternalStructArrField fld.2 fld.1 &&
         decayEosType fld.2 = structType
      then acc2 ++ [st.1] else acc2) acc) []

/-- `__is_internal_struct` (source lines 1343-1354). -/
def isInternalStruct (M : Model) (structType : String) : Bool :=
  !(containersOf M structType).isEmpty

/-- The `r_owned_structs` list built by `__is_internal_struct_of_arr`
(source lines 1357-1368): every struct owning an allow-list array field
whose decayed type is `structType`. -/
def containersOfArr (M : Model) (structType : String) : List String :=
  M.structs.foldl (fun acc st =>
    st.2.foldl (fun acc2 fld =>
      if !acc2.contains st.1 &&
         isInternalStructArrField fld.2 fld.1 &&
         decayEosType fld.2 = structType
      then acc2 ++ [st.1] else acc2) acc) []

/-- `__is_internal_struct_of_arr` (source lines 1357-1368). -/
def isInternalStructOfArr (M : Model) (structType : String) : Bool :=
  !(containersOfArr M structType).isEmpty

/-- `__is_method_input_only_struct` (source lines 1371-1378).  The
source tests `__is_internal_struct_of_arr` *twice* in its first
condition (the scalar-internal classifier is never consulted); the
duplication is kept verbatim here. -/
def isMethodInputOnlyStruct (M : Model) (structType : String) : Bool :=
  if isInternalStructOfArr M structType || isInternalStructOfArr M structType then
    false
  else if isArgOutStruct M structType || isOutputStruct M structType then
    false
  else
    true

/-- `__is_callback_output_only_struct` (source lines 1381-1388), with the
same duplicated `__is_internal_struct_of_arr` test as in the source. -/
def isCallbackOutputOnlyStruct (M : Model) (structType : String) : Bool :=
  if isInternalStructOfArr M structType || isInternalStructOfArr M structType then
    false
  else if isArgOutStruct M structType || isInputStruct M structType then
    false
  else
    true

/-! ## Requirement derivation (`_make_additional_method_requirements`,
source lines 1391-1445) -/

/-- Generation thresholds (source lines 43-44). -/
def max_options_fields_count_to_expend : Nat := 3

/-- Generation thresholds (source lines 43-44). -/
def max_callback_fields_count_to_expend : Nat := 3

/-- Pointwise update of the requirements table (a Python dict keyed by
struct name, modelled as a total function). -/
def updFn (r : String → Req) (k : String) (v : Req) : String → Req :=
  fun x => if x = k then v else r x

/-- The entry written for one struct by the first pass (source lines
1393-1408): init all-false, then `set_to`/`to` if input, `set_from` and
`from` if output, and `set_from` (only) if out-argument. -/
def reqPass1Entry (M : Model) (structName : String) : Req :=
  let r0 : Req := Req.init
  let r1 := if isInputStruct M structName then
    { r0 with setTo := true, toFlag := true } else r0
  let r2 := if isOutputStruct M structName then
    { r1 with setFrom := true, fromFlag := true } else r1
  if isArgOutStruct M structName then { r2 with setFrom := true } else r2

/-- First pass of `_make_additional_method_requirements` (source lines
1392-1408): one entry per struct, in struct-table order. -/
def reqPass1 (M : Model) : String → Req :=
  M.structs.foldl (fun r st => updFn r st.1 (reqPass1Entry M st.1)) (fun _ => Req.init)

/-- Bitwise or of two requirement entries. -/
def reqOr (a b : Req) : Req :=
  ⟨a.setFrom || b.setFrom, a.fromFlag || b.fromFlag,
   a.setTo || b.setTo, a.toFlag || b.toFlag⟩

/-- The body of the second pass for one struct (source lines 1410-1429):
copy every true flag of each struct that *contains* this struct as a
scalar field, then handle the array allow-list containers. -/
def reqPass2Step (M : Model) (r : String → Req) (structName : String) : String → Req :=
  let cs := containersOf M structName
  let r1 := if !cs.isEmpty then
    cs.foldl (fun r c => updFn r structName (reqOr (r structName) (r c))) r
  else r
  let csa := containersOfArr M structName
  if !csa.isEmpty then
    csa.foldl (fun r c =>
      let r2 := if isInputStruct M c then
        updFn r structName { r structName with setTo := true } else r
      if isOutputStruct M c || isArgOutStruct M c then
        updFn r2 structName { r2 structName with setFrom := true, fromFlag := true }
      else r2) r1
  else r1

/-- Second pass of `_make_additional_method_requirements` (source lines
1409-1429). -/
def reqPass2 (M : Model) (r : String → Req) : String → Req :=
  M.structs.foldl (fun r st => reqPass2Step M r st.1) r

/-- The final `struct2additional_method_requirements` table (source
lines 1391-1429). -/
def structReqs (M : Model) : String → Req :=
  reqPass2 M (reqPass1 M)

/-- `len(structs[struct_type])` as read by the expansion pass (source
line 1433). -/
def fieldCountOf (M : Model) (structName : String) : Nat :=
  match alistLookup M.structs structName with
  | some fl => fl.length
  | none => 0

/-- The expansion condition of the call-argument branch (source lines
1434-1439). -/
def expandArgsCond (M : Model) (structType : String) : Bool :=
  decide (0 < max_options_fields_count_to_expend) &&
  decide (fieldCountOf M structType ≤ max_options_fields_count_to_expend) &&
  isMethodInputOnlyStruct M structType

/-- The expansion condition of the callback branch (source lines
1440-1445). -/
def expandCallbackCond (M : Model) (structType : String) : Bool :=
  decide (0 < max_callback_fields_count_to_expend) &&
  decide (fieldCountOf M structType ≤ max_callback_fields_count_to_expend) &&
  isCallbackOutputOnlyStruct M structType

/-- `expended_as_args_structs` as filled by the third pass of
`_make_additional_method_requirements` (source lines 1431-1445): both
the call-argument branch and the callback branch append to this one
list. -/
def expendedAsArgsStructs (M : Model) : List String :=
  M.structs.foldl (fun acc st =>
    let acc1 := if expandArgsCond M st.1 then acc ++ [st.1] else acc
    if expandCallbackCond M st.1 then acc1 ++ [st.1] else acc1) []

/-! ## Count/array field pairing (`_find_count_field`, source lines
1969-2001) -/

/-- The count-like suffix test of the candidate loop (source lines
1975-1981). -/
def isCountSuffix (f : String) : Bool :=
  pyEndswith f "Count" || pyEndswith f "Size" || pyEndswith f "Length" ||
  pyEndswith f "LengthBytes" || pyEndswith f "SizeBytes"

/-- Token normalisation on the candidate side (source line 1985):
`fsplited[i].removesuffix("s").removesuffix("y")`. -/
def normCandTok (s : String) : String :=
  pyStripSuf (pyStripSuf s "s") "y"

/-- Token normalisation on the array-field side (source lines 1985-1987):
`splited[i].removesuffix("ies").removesuffix("s")`. -/
def normArrTok (s : String) : String :=
  pyStripSuf (pyStripSuf s "ies") "s"

/-- The `similar` counter (source lines 1983-1990): number of leading
token positions, up to the bound, on which the normalised tokens agree
(the source loop breaks at the first mismatch). -/
def prefixSim : List String → List String → Nat → Nat
  | f :: ft, s :: st, m + 1 =>
    if normCandTok f = normArrTok s then 1 + prefixSim ft st m else 0
  | _, _, _ => 0

/-- `min(2, len(fsplited), len(splited))` (source lines 1984, 1991). -/
def candMin (splited : List String) (f : String) : Nat :=
  min 2 (min (pySplitAll (toSnakeCase f) "_").length splited.length)

/-- The similarity score of candidate `f` against the array-field token
list. -/
def candSim (splited : List String) (f : String) : Nat :=
  prefixSim (pySplitAll (toSnakeCase f) "_") splited (candMin splited f)

/-- Candidate accepted immediately by the exact-match branch (source
line 1991). -/
def candExact (splited : List String) (f : String) : Bool :=
  isCountSuffix f && decide (candMin splited f ≤ candSim splited f)

/-- Candidate collected into `similars_fileds` (source lines 1993-1995):
count-suffixed, not an exact match, but with non-zero overlap. -/
def candOverlap (splited : List String) (f : String) : Bool :=
  isCountSuffix f && !decide (candMin splited f ≤ candSim splited f) &&
  decide (0 < candSim splited f)

/-- The candidate loop of `_find_count_field` (source lines 1972-2001).
The source also compares each candidate to the whole field list
(`if f == fields`, line 1973) — a string never equals a list, so no
candidate is ever skipped and the comparison is not modelled.  The
fall-through (zero or several collected candidates) prints a report and
returns `None`, modelled as `none`. -/
def findCountGo (splited : List String) : List String → List String → Option String
  | [], sims => if sims.length = 1 then some (headFirst sims) else none
  | f :: rest, sims =>
    if isCountSuffix f then
      if candMin splited f ≤ candSim splited f then some f
      else if 0 < candSim splited f then findCountGo splited rest (sims ++ [f])
      else findCountGo splited rest sims
    else findCountGo splited rest sims

/-- `_find_count_field` (source lines 1969-2001). -/
def findCountField (field : String) (fields : List String) : Option String :=
  findCountGo (pySplitAll (toSnakeCase field) "_") fields []

/-! ## Declaration scanner (`_parse_file`, source lines 1448-1632)

The `while i < len(lines)` loop with its nested block loops is
modelled by recursion over the remaining lines.  An out-of-bounds
`lines[i]` access (unterminated block) is the Python `IndexError`;
lines the source merely prints about are collected into a report
list and scanning continues.  The outer loop is fuelled by the
number of remaining lines (each iteration consumes at least one
line, so the fuel never runs out). -/

/-- Result state of scanning one file: the per-file tables, the shared
`api_latest_macros` registry, and the printed error reports. -/
structure ParseState where
  info : FileInfo
  apiLatestMacros : List String
  reports : List String
deriving DecidableEq, Repr

/-- The enum-block loop (source lines 1485-1499): collect member names
until a line starts with `);`, skipping indented or comment lines,
discarding explicit `= value` assignments.  Running out of lines is the
`IndexError` of `lines[i]`. -/
def scanEnumBlock : List String → List String → Except String (List String × List String)
  | [], _ => Except.error "IndexError"
  | l :: rest, acc =>
    if pyStartswith l ");" then Except.ok (acc, rest)
    else
      let line := pyRstrip (pyRstrip (pyLstrip l "\t") "\n") ","
      if pyStartswith line " " || pyStartswith line "/" then scanEnumBlock rest acc
      else scanEnumBlock rest (acc ++ [headFirst (pySplitAll line " = ")])

/-- The union-block loop (source lines 1577-1596): collect
`name ↦ payload-type` bindings until a (tab-stripped) line starts with
`}`; a line that does not split into exactly two tokens is reported and
skipped.  Returns the bindings, the terminator line (which carries the
field name), the report list, and the remaining lines. -/
def scanUnion : List String → List (String × String) → List String →
    Except String (List (String × String) × String × List String × List String)
  | [], _, _ => Except.error "IndexError"
  | l :: rest, ufields, reports =>
    if pyStartswith (pyLstrip l "\t") "\x7d" then Except.ok (ufields, l, reports, rest)
    else
      let line := pyRstrip (pyLstrip l "\t") "\n"
      if pyStartswith line "/" || pyStartswith line "*" || pyStartswith line " " ||
         line.data.isEmpty then
        scanUnion rest ufields reports
      else
        let line := headFirst (pySplitAll line ";")
        let sp := pyRsplitN line " " 1
        if sp.length ≠ 2 then scanUnion rest ufields (reports ++ ["-ERROR: " ++ l])
        else scanUnion rest (alistInsert ufields (sp.getD 1 "") (headFirst sp)) reports

/-- The `Union{payload : arm, ...}` type string (source lines
1598-1601).  Literal braces are written with character escapes. -/
def unionTypeString (ufields : List (String × String)) : String :=
  pyRstrip (pyRstrip
    (ufields.foldl (fun acc p => acc ++ p.2 ++ " : " ++ p.1 ++ ", ") "Union\x7b")
    " ") "," ++ "\x7d"

/-- The struct-block loop (source lines 1563-1627): collect fields until
a line starts with `));`.  A declaration line that does not split into a
(type, name) pair is *reported and skipped* (source lines 1617-1619);
an embedded union block is desugared via `scanUnion` (the source skips
two lines, `i += 2`, before scanning the union body).  Fuelled because
the union case resumes on the suffix returned by `scanUnion`. -/
def scanStructBlockF : Nat → List String → List (String × String) → List String →
    Except String (List (String × String) × List String × List String)
  | _, [], _, _ => Except.error "IndexError"
  | 0, _ :: _, _, _ => Except.error "Fuel"
  | fuel + 1, l :: rest, fields, reports =>
    if pyStartswith l "));" then Except.ok (fields, reports, rest)
    else
      let line := pyRstrip (pyLstrip l "\t") "\n"
      if pyStartswith line "/" || pyStartswith line "*" || pyStartswith line " " ||
         line.data.isEmpty then
        scanStructBlockF fuel rest fields reports
      else
        let line := headFirst (pySplitAll line ";")
        if pyStartswith line "union" then
          match scanUnion rest.tail [] reports with
          | Except.error e => Except.error e
          | Except.ok (ufields, termLine, reports2, rest2) =>
            let field := pyRstrip (pyRstrip
              (pyLstrip (pyLstrip (pyLstrip termLine "\t") "\x7d") " ") "\n") ";"
            scanStructBlockF fuel rest2
              (alistInsert fields field (unionTypeString ufields)) reports2
        else
          let sp := pyRsplitN line " " 1
          if sp.length ≠ 2 then
            scanStructBlockF fuel rest fields (reports ++ ["ERROR: " ++ l])
          else
            scanStructBlockF fuel rest
              (alistInsert fields (sp.getD 1 "") (headFirst sp)) reports

/-- The main dispatch loop of `_parse_file` (source lines 1453-1632),
one construct per branch in source order: version macro, opaque-handle
typedef, enum block, function-declaration macro, callback-declaration
macro, struct block, and the skip-everything-else default. -/
def parseLinesF : Nat → List String → ParseState → Except String ParseState
  | _, [], st => Except.ok st
  | 0, _ :: _, _ => Except.error "Fuel"
  | fuel + 1, l :: rest, st =>
    if pyStartswith l "#define EOS_" && pyIn "_API_LATEST" l then do
      let apiMacro ← pyIndexE (pySplitN l " " 2) 1
      parseLinesF fuel rest
        { st with apiLatestMacros := st.apiLatestMacros ++ [apiMacro] }
    else if pyIn "typedef struct " l && pyIn "Handle*" l then do
      let t1 ← pyIndexE (pySplitN l "* " 1) 1
      let handleType := headFirst (pySplitN t1 ";" 1)
      parseLinesF fuel rest
        { st with info.handles := alistInsert st.info.handles handleType ⟨[], [], []⟩ }
    else if pyStartswith l "EOS_ENUM(" &&
        !(["EOS_ENUM_START", "EOS_ENUM_END", "EOS_ENUM_BOOLEAN_OPERATORS"].contains
          (headFirst (pySplitAll l "("))) then do
      let t1 ← pyIndexE (pySplitAll l "(") 1
      let enumType := headFirst (pySplitAll t1 ",")
      let (members, rest2) ← scanEnumBlock rest []
      parseLinesF fuel rest2
        { st with info.enums := alistInsert st.info.enums enumType members }
    else if pyStartswith l "EOS_DECLARE_FUNC" then do
      let t1 ← pyIndexE (pySplitN l ") " 1) 1
      let methodName := headFirst (pySplitAll t1 "(")
      if methodName = "EOS_Achievements_AddNotifyAchievementsUnlocked" then
        parseLinesF fuel rest st
      else do
        let r1 ← pyIndexE (pySplitAll (headFirst (pySplitN l " " 1)) "(") 1
        let retType := pyRstrip r1 ")"
        let t2 ← pyIndexE (pySplitN l " " 1) 1
        let t3 ← pyIndexE (pySplitN t2 "(" 1) 1
        let argsStr := headFirst (pyRsplitN t3 ")" 1)
        let args ← (pySplitAll argsStr ", ").foldlM (fun acc a =>
          if a.data.isEmpty then Except.ok acc
          else
            let sp := pyRsplitN a " " 1
            if headFirst sp = "void" then Except.ok acc
            else do
              let nm ← pyIndexE sp 1
              Except.ok (acc ++ [Arg.mk (headFirst sp) nm])) []
        parseLinesF fuel rest
          { st with info.methods :=
              alistInsert st.info.methods methodName ⟨retType, args⟩ }
    else if pyStartswith l "EOS_DECLARE_CALLBACK" then do
      let hasRet := pyStartswith l "EOS_DECLARE_CALLBACK_RETVALUE"
      let t1 ← pyIndexE (pySplitN l "(" 1) 1
      let argsStr := headFirst (pySplitAll t1 ")")
      let args := pySplitAll argsStr ", "
      let callbackName ← if hasRet then pyIndexE args 1 else pyIndexE args 0
      let sp := pyRsplitN (args.getLastD "") " " 1
      let nm ← pyIndexE sp 1
      let cbInfo : CallbackInfo :=
        ⟨if hasRet then headFirst args else "", [Arg.mk (headFirst sp) nm]⟩
      parseLinesF fuel rest
        { st with info.callbacks :=
            alistInsert st.info.callbacks callbackName cbInfo }
    else if pyStartswith l "EOS_STRUCT" then do
      let structName :=
        pyRstrip (pyRstrip (pyLstrip (pyLstrip l "EOS_STRUCT") "(") "\n") ", ("
      let (fields, reports2, rest2) ← scanStructBlockF rest.length rest [] st.reports
      parseLinesF fuel rest2
        { st with
          info.structs := alistInsert st.info.structs structName fields,
          reports := reports2 }
    else
      parseLinesF fuel rest st

/-- `_parse_file` on the list of lines of one file (source lines
1448-1632), starting from empty tables. -/
def parseFile (lines : List String) : Except String ParseState :=
  parseLinesF lines.length lines ⟨⟨[], [], [], [], []⟩, [], []⟩

/-! ## Global consolidation (`parse_all_file`, source lines 157-243)

The migration loop moves methods into handle tables and interface
accessors into the interface table, then handles, structs and the
leftover methods/callbacks are merged into the global tables.  The
enum-ownership step (source lines 225-233) concerns no claim and is
not modelled. -/

/-- Interface-name derivation for accessor methods (source lines
168-177): split on `_`; blank the tokens `EOS` and `Platform`; strip a
`Get` prefix from each token; strip an `Interface` suffix from each
token unless the strip would leave the token empty; join. -/
def deriveInterfaceName (methodName : String) : String :=
  let tokens := (pySplitAll methodName "_").map (fun t0 =>
    let t1 := if t0 = "EOS" || t0 = "Platform" then "" else t0
    let t2 := if pyStartswith t1 "Get" then pyStripPre t1 "Get" else t1
    if (pyStripSuf t2 "Interface").data.isEmpty then t2 else pyStripSuf t2 "Interface")
  ⟨(tokens.map String.data).flatten⟩

/-- The initial content of the module-level `interfaces` table (source
lines 21-28; its single pre-seeded entry records `EOS_Platform_Create`,
whose argument entry is modelled as a one-element list). -/
def initialInterfaces : List (String × MethodInfo) :=
  [("Platform", ⟨"EOS_HPlatform", [Arg.mk "const EOS_Platform_Options*" "Options"]⟩)]

/-- Mutable state of the migration loop: the per-file tables plus the
`interfaces` and `release_methods` globals. -/
structure MigState where
  files : List (String × FileInfo)
  interfaces : List (String × MethodInfo)
  releaseMethods : List (String × MethodInfo)
deriving DecidableEq, Repr

/-- The handle table of one file (the source binds `_handles =
file_lower2infos[il]["handles"]` and reads/writes through the alias;
the key is always present). -/
def fileHandles (files : List (String × FileInfo)) (k : String) :
    List (String × HandleInfo) :=
  match alistLookup files k with
  | some fi => fi.handles
  | none => []

/-- The callback table of one file. -/
def fileCallbacks (files : List (String × FileInfo)) (k : String) :
    List (String × CallbackInfo) :=
  match alistLookup files k with
  | some fi => fi.callbacks
  | none => []

/-- The method table of one file. -/
def fileMethods (files : List (String × FileInfo)) (k : String) :
    List (String × MethodInfo) :=
  match alistLookup files k with
  | some fi => fi.methods
  | none => []

/-- One iteration of the argument scan of the handle-ownership step
(source lines 182-195): the first argument whose decayed type is a key
of the current handle table moves the method into that handle (guarded
by the to-remove list, so the move happens at most once); any
callback-suffixed argument type is remembered (last one wins). -/
def processArgsStep (ilKey methodName : String) (mi : MethodInfo)
    (acc : String × String × List (String × FileInfo) × List String) (a : Arg) :
    String × String × List (String × FileInfo) × List String :=
  let (ht, ct, files, tr) := acc
  let argType := decayEosType a.type
  let (ht, files, tr) :=
    if (alistLookup (fileHandles files ilKey) argType).isSome then
      if !tr.contains methodName then
        (argType,
         alistModify files ilKey (fun fi =>
           { fi with handles := alistModify fi.handles argType (fun h =>
               { h with methods := alistInsert h.methods methodName mi }) }),
         tr ++ [methodName])
      else (ht, files, tr)
    else (ht, files, tr)
  let ct := if pyEndswith argType "Callback" || pyEndswith argType "CallbackV2"
            then argType else ct
  (ht, ct, files, tr)

/-- Processing of one method of file `jKey` against the handle table of
file `ilKey` (source lines 163-208): interface-accessor extraction,
handle-ownership argument scan, release extraction (which skips the
callback move), and the callback move itself (whose table read raises
`KeyError` when the callback is not in this file). -/
def processMethod (ilKey jKey : String) (st : MigState) (tr : List String)
    (nm : String × MethodInfo) : Except String (MigState × List String) :=
  let (name, mi) := nm
  if pyIn "_Get" name && pyEndswith name "Interface" then
    Except.ok
      ({ st with interfaces := alistInsert st.interfaces (deriveInterfaceName name) mi },
       tr ++ [name])
  else
    let (ht, ct, files1, tr1) :=
      mi.args.foldl (processArgsStep ilKey name mi) ("", "", st.files, tr)
    if pyEndswith name "_Release" then
      let st1 := { st with files := files1 }
      Except.ok
        ({ st1 with releaseMethods := alistInsert st1.releaseMethods name mi },
         tr1 ++ [name])
    else if !ht.data.isEmpty && !ct.data.isEmpty then
      match alistLookup (fileCallbacks files1 jKey) ct with
      | none => Except.error "KeyError"
      | some cb =>
        let files2 := alistModify files1 ilKey (fun fi =>
          { fi with handles := alistModify fi.handles ht (fun h =>
              { h with callbacks := alistInsert h.callbacks ct cb }) })
        let files3 := alistModify files2 jKey (fun fi =>
          { fi with callbacks :=
              match alistPop fi.callbacks ct with
              | Except.ok l => l
              | Except.error _ => fi.callbacks })
        Except.ok ({ st with files := files3 }, tr1)
    else
      Except.ok ({ st with files := files1 }, tr1)

/-- The deferred `infos["methods"].pop(m)` loop (source lines 210-211):
popping a name that is no longer present (possible when a name was
added to the to-remove list twice) raises `KeyError`. -/
def popMethods (files : List (String × FileInfo)) (jKey : String)
    (tr : List String) : Except String (List (String × FileInfo)) :=
  tr.foldlM (fun fs m =>
    match alistLookup fs jKey with
    | none => Except.error "KeyError"
    | some fi =>
      (alistPop fi.methods m).map (fun ms =>
        alistModify fs jKey (fun f => { f with methods := ms }))) files

/-- One pass of file `jKey`'s methods against file `ilKey`'s handle
table (source lines 160-211): the method list is snapshotted at entry
(the source iterates the dict and defers removals). -/
def processFilePair (ilKey jKey : String) (st : MigState) : Except String MigState := do
  let ms := fileMethods st.files jKey
  let (st1, tr) ← ms.foldlM
    (fun (p : MigState × List String) nm => processMethod ilKey jKey p.1 p.2 nm)
    (st, [])
  let files2 ← popMethods st1.files jKey tr
  Except.ok { st1 with files := files2 }

/-- The full migration double loop (source lines 158-211): for every
file's handle table, scan every file's methods. -/
def migrate (files : List (String × FileInfo)) : Except String MigState :=
  let keys := alistKeys files
  keys.foldlM (fun st il => keys.foldlM (fun st2 j => processFilePair il j st2) st)
    { files := files, interfaces := initialInterfaces, releaseMethods := [] }

/-- The consolidated global tables produced by `parse_all_file`. -/
structure ConsResult where
  interfaces : List (String × MethodInfo)
  handles : List (String × HandleInfo)
  structs : List (String × List (String × String))
  releaseMethods : List (String × MethodInfo)
  unhandledMethods : List (String × MethodInfo)
  unhandledCallbacks : List (String × CallbackInfo)
deriving DecidableEq, Repr

/-- `parse_all_file` from the migration loop onwards (source lines
157-243): migrate, merge handles and structs into the global tables,
and file the remaining methods/callbacks as unhandled. -/
def consolidate (files : List (String × FileInfo)) : Except String ConsResult := do
  let st ← migrate files
  let handles := st.files.foldl (fun acc fi =>
    fi.2.handles.foldl (fun a h => alistInsert a h.1 h.2) acc) []
  let structsAll := st.files.foldl (fun acc fi =>
    fi.2.structs.foldl (fun a s => alistInsert a s.1 s.2) acc) []
  let ucb := st.files.foldl (fun acc fi =>
    fi.2.callbacks.foldl (fun a c => alistInsert a c.1 c.2) acc) []
  let um := st.files.foldl (fun acc fi =>
    fi.2.methods.foldl (fun a m => alistInsert a m.1 m.2) acc) []
  Except.ok ⟨st.interfaces, handles, structsAll, st.releaseMethods, um, ucb⟩

/-! ## Concrete input models used by the claim theorems -/

/-- A handle with empty sub-tables, as registered by the scanner. -/
def emptyHandle : HandleInfo := ⟨[], [], []⟩

/-- A model whose struct `EOS_Inner` occurs only as a scalar field of
`EOS_Outer` (role: internal), with no methods or callbacks at all. -/
def nestedOnlyModel : Model :=
  { handles := [], unhandledMethods := [], unhandledCallbacks := [],
    structs := [("EOS_Outer", [("F", "EOS_Inner")]),
                ("EOS_Inner", [("A", "int32_t")])] }

/-- A model whose struct `EOS_Test_Info` occurs only as an
`Out`-prefixed argument of a handle method (role: out-argument). -/
def outArgOnlyModel : Model :=
  { handles := [("EOS_HTest",
      { methods := [("EOS_Test_Query",
          { ret := "void",
            args := [Arg.mk "EOS_HTest" "Handle", Arg.mk "EOS_Test_Info*" "OutInfo"] })],
        callbacks := [], enums := [] })],
    unhandledMethods := [], unhandledCallbacks := [],
    structs := [("EOS_Test_Info", [("A", "int32_t")])] }

/-- A model whose struct `EOS_Foo_Info` occurs only as a callback
argument (role: output). -/
def callbackOutputModel : Model :=
  { handles := [("EOS_HTest",
      { methods := [],
        callbacks := [("EOS_OnFooCallback",
          { ret := "", args := [Arg.mk "const EOS_Foo_Info*" "Data"] })],
        enums := [] })],
    unhandledMethods := [], unhandledCallbacks := [],
    structs := [("EOS_Foo_Info", [("A", "int32_t")])] }

/-- A model where `EOS_X` contains `EOS_Y` as a scalar field and `EOS_Y`
(the member) is a method input; the container has no role of its own. -/
def memberInputModel : Model :=
  { handles := [("EOS_HT",
      { methods := [("EOS_T_Do",
          { ret := "void",
            args := [Arg.mk "EOS_HT" "Handle", Arg.mk "const EOS_Y*" "Options"] })],
        callbacks := [], enums := [] })],
    unhandledMethods := [], unhandledCallbacks := [],
    structs := [("EOS_X", [("F", "EOS_Y")]), ("EOS_Y", [("A", "int32_t")])] }

/-- A model where `EOS_X` contains `EOS_Y` as a scalar field and `EOS_X`
(the container) is a method input; the member has no role of its own. -/
def containerInputModel : Model :=
  { handles := [("EOS_HT",
      { methods := [("EOS_T_Do",
          { ret := "void",
            args := [Arg.mk "EOS_HT" "Handle", Arg.mk "const EOS_X*" "Options"] })],
        callbacks := [], enums := [] })],
    unhandledMethods := [], unhandledCallbacks := [],
    structs := [("EOS_X", [("F", "EOS_Y")]), ("EOS_Y", [("A", "int32_t")])] }

/-- One file containing only the no-argument accessor method
`Foo_GetBarInterface`. -/
def accessorFiles : List (String × FileInfo) :=
  [("test", ⟨[], [("Foo_GetBarInterface", ⟨"void", []⟩)], [], [], []⟩)]

/-- Two files: file `a` declares handle `EOS_HA`, file `b` declares
handle `EOS_HB` and a method whose first argument is of type `EOS_HB`
and whose second argument is of type `EOS_HA`. -/
def twoFileHandles : List (String × FileInfo) :=
  [("a", ⟨[("EOS_HA", emptyHandle)], [], [], [], []⟩),
   ("b", ⟨[("EOS_HB", emptyHandle)],
         [("EOS_M", ⟨"void", [Arg.mk "EOS_HB" "X", Arg.mk "EOS_HA" "Y"]⟩)],
         [], [], []⟩)]

/-- One file declaring handle `EOS_HA` and a method whose only argument
has type `EOS_HA`. -/
def oneFileHandles : List (String × FileInfo) :=
  [("test", ⟨[("EOS_HA", emptyHandle)],
            [("EOS_M", ⟨"void", [Arg.mk "EOS_HA" "H"]⟩)], [], [], []⟩)]

/-- The first argument of a method whose decayed type is a key of the
given handle table (used to state the first-match rule). -/
def firstMatchingHandle (hs : List (String × HandleInfo)) (args : List Arg) :
    Option String :=
  (args.map (fun a => decayEosType a.type)).find?
    (fun t => (alistLookup hs t).isSome)

/-- The method table of the handle bound to `key` in a file (empty when
no such handle exists); used to trace method ownership through the
migration loop. -/
def hMethods (fi : FileInfo) (key : String) : List (String × MethodInfo) :=
  match alistLookup fi.handles key with
  | some hi => hi.methods
  | none => []

/-- State facts holding while the method `name` has not been processed
yet: the single file is intact, its handle keys are the input ones, no
handle owns `name`, and `name` is not marked for removal. -/
def c9Pre (k : String) (f : FileInfo) (name : String) (st : MigState)
    (tr : List String) : Prop :=
  ∃ fi, st.files = [(k, fi)] ∧ alistKeys fi.handles = alistKeys f.handles ∧
    fi.methods = f.methods ∧
    (∀ key, name ∉ (hMethods fi key).map (·.1)) ∧ name ∉ tr

/-- State facts holding once the method `name` has been processed: it is
bound (to its original entry, exactly once) in the method table of
handle `h` and of no other handle, and it is marked for removal. -/
def c9Post (k : String) (f : FileInfo) (name : String) (mi : MethodInfo)
    (h : String) (st : MigState) (tr : List String) : Prop :=
  ∃ fi, st.files = [(k, fi)] ∧ alistKeys fi.handles = alistKeys f.handles ∧
    fi.methods = f.methods ∧
    alistLookup (hMethods fi h) name = some mi ∧
    ((hMethods fi h).map (·.1)).count name = 1 ∧
    (∀ key, key ≠ h → name ∉ (hMethods fi key).map (·.1)) ∧ tr.count name = 1

/-- Pointwise flag order on requirement entries: every true flag of `a`
is true in `b` (used to state flag inheritance through the passes). -/
def reqLe (a b : Req) : Prop :=
  (a.setFrom = true → b.setFrom = true) ∧ (a.fromFlag = true → b.fromFlag = true) ∧
  (a.setTo = true → b.setTo = true) ∧ (a.toFlag = true → b.toFlag = true)

/-- The single file after the argument scan has moved method `name`
into handle `h`'s table. -/
def insFile (fi : FileInfo) (h name : String) (mi : MethodInfo) : FileInfo :=
  { fi with handles := (alistModify fi.handles h
      (fun hh => { hh with methods := alistInsert hh.methods name mi })) }

/-- The consolidated output of `oneFileHandles`, for the C9 witness. -/
def c9ConsOut : ConsResult :=
  ⟨initialInterfaces,
   [("EOS_HA", ⟨[("EOS_M", ⟨"void", [Arg.mk "EOS_HA" "H"]⟩)], [], []⟩)],
   [], [], [], []⟩

/-! ## Helper lemmas -/

theorem dropWhile_head_false {p : Char → Bool} {l : List Char}
    (h : ∀ c, l.head? = some c → p c = false) : l.dropWhile p = l := by
  cases l with
  | nil => rfl
  | cons a t =>
    have := h a rfl
    simp [List.dropWhile_cons, this]

theorem dropWhile_append_all {p : Char → Bool} {l1 l2 : List Char}
    (h : ∀ c ∈ l1, p c = true) : (l1 ++ l2).dropWhile p = l2.dropWhile p := by
  induction l1 with
  | nil => rfl
  | cons a t ih =>
    have ha := h a (by simp)
    simp only [List.cons_append, List.dropWhile_cons, ha, if_true]
    exact ih (fun c hc => h c (by simp [hc]))

theorem contains_false_of_not_mem {l : List Char} {c : Char} (h : c ∉ l) :
    l.contains c = false := by
  simp [List.contains, h]

theorem pyLstrip_noop {s chars : String}
    (h : ∀ c, s.data.head? = some c → chars.data.contains c = false) :
    pyLstrip s chars = s := by
  unfold pyLstrip
  rw [dropWhile_head_false h]

theorem pyRstrip_noop {s chars : String}
    (h : ∀ c, s.data.getLast? = some c → chars.data.contains c = false) :
    pyRstrip s chars = s := by
  unfold pyRstrip
  rw [dropWhile_head_false (by simpa using h), List.reverse_reverse]

/-! ## Claim C10 (confirmed) -/

/-- C10: `_decay_eos_type` strips the character *set* of `const`, not
the literal prefix: `decayEosType "char*" = "har"`, while for any
well-formed type name `X` (non-empty, first character outside the
stripped set and not a space, last character not one of `*`, `&`,
space) decaying `const X*` yields `X`. -/
theorem c10_decay_charset_semantics :
    decayEosType "char*" = "har" ∧
    ∀ X : String, X.data ≠ [] →
      (∀ c, X.data.head? = some c → c ∉ ['c', 'o', 'n', 's', 't', ' ']) →
      (∀ c, X.data.getLast? = some c → c ∉ ['*', '&', ' ']) →
      decayEosType ("const " ++ X ++ "*") = X := by
  refine ⟨by decide, ?_⟩
  intro X hne hhd hlast
  obtain ⟨a, t, hX⟩ : ∃ a t, X.data = a :: t := by
    cases hd : X.data with
    | nil => exact absurd hd hne
    | cons a t => exact ⟨a, t, rfl⟩
  have hhda := hhd a (by rw [hX]; rfl)
  have haSpace : a ≠ ' ' := by
    intro h
    exact hhda (by simp [h])
  have hd0 : ("const " ++ X ++ "*").data =
      ['c', 'o', 'n', 's', 't'] ++ (' ' :: (X.data ++ ['*'])) := by
    simp [String.data_append]
  have e1 : pyLstrip ("const " ++ X ++ "*") "const" = ⟨' ' :: (X.data ++ ['*'])⟩ := by
    unfold pyLstrip
    rw [hd0, dropWhile_append_all (by decide)]
    rw [List.dropWhile_cons_of_neg (by decide)]
  have e2 : pyLstrip ⟨' ' :: (X.data ++ ['*'])⟩ " " = ⟨X.data ++ ['*']⟩ := by
    unfold pyLstrip
    rw [show (String.mk (' ' :: (X.data ++ ['*']))).data = ' ' :: (X.data ++ ['*']) from rfl]
    rw [List.dropWhile_cons_of_pos (by decide), hX, List.cons_append]
    rw [List.dropWhile_cons_of_neg (by simp [contains_false_of_not_mem, haSpace])]
  have e3 : pyRstrip ⟨X.data ++ ['*']⟩ "*" = X := by
    unfold pyRstrip
    rw [show (String.mk (X.data ++ ['*'])).data = X.data ++ ['*'] from rfl]
    rw [List.reverse_append]
    rw [show ((['*'] : List Char).reverse ++ X.data.reverse) = '*' :: X.data.reverse from rfl]
    rw [List.dropWhile_cons_of_pos (by decide)]
    rw [dropWhile_head_false (by
      intro c hc
      rw [List.head?_reverse] at hc
      have hmem := hlast c hc
      apply contains_false_of_not_mem
      intro hin
      apply hmem
      simp at hin
      simp [hin])]
    rw [List.reverse_reverse]
  have nR : ∀ chars : String, (∀ c ∈ chars.data, c ∈ ['*', '&', ' ']) →
      pyRstrip X chars = X := by
    intro chars hsub
    apply pyRstrip_noop
    intro c hc
    have hmem := hlast c hc
    apply contains_false_of_not_mem
    intro hin
    exact hmem (hsub c hin)
  have n1 : pyRstrip X "&" = X := nR "&" (by decide)
  have n2 : pyRstrip X "*" = X := nR "*" (by decide)
  have n4 : pyRstrip X " " = X := nR " " (by decide)
  have n3 : pyLstrip X " " = X := by
    apply pyLstrip_noop
    intro c hc
    have hmem := hhd c hc
    apply contains_false_of_not_mem
    intro hin
    apply hmem
    simp at hin
    simp [hin]
  unfold decayEosType
  rw [e1, e2, e3, n1, n2, n1, n3, n4]

/-- Witness for C10: instantiating the universal part at the concrete
type name `EOS_Foo` with all hypotheses discharged by evaluation. -/
theorem c10_witness :
    decayEosType ("const " ++ "EOS_Foo" ++ "*") = "EOS_Foo" :=
  c10_decay_charset_semantics.2 "EOS_Foo" (by decide) (by decide) (by decide)

/-! ## Claim C2 (code bug) -/

/-- C2: the spec states that no struct is simultaneously expanded and
internal/internal-of-array.  The code violates the internal (scalar)
half: because `__is_method_input_only_struct` tests
`__is_internal_struct_of_arr` twice instead of also testing
`__is_internal_struct` (source lines 1372-1374, an evident slip — the
same pure predicate is or-ed with itself), the struct `EOS_Inner`,
which occurs only as a scalar field of `EOS_Outer`, is both internal
and placed in the expanded-as-arguments list. -/
theorem c2_expanded_internal_overlap :
    "EOS_Inner" ∈ expendedAsArgsStructs nestedOnlyModel ∧
    isInternalStruct nestedOnlyModel "EOS_Inner" = true := by
  decide

/-! ## Claim C1 (corrected) -/

/-- C1, counterexample: at `nestedOnlyModel` the struct `EOS_Inner` has
field count 1 ≤ threshold and its role set contains internal (so is
not input/out-argument only), yet it *is* in the expanded list — the
claimed iff fails at this input. -/
theorem c1_counterexample :
    ¬ (("EOS_Inner" ∈ expendedAsArgsStructs nestedOnlyModel) ↔
       (fieldCountOf nestedOnlyModel "EOS_Inner" ≤ max_options_fields_count_to_expend ∧
        isOutputStruct nestedOnlyModel "EOS_Inner" = false ∧
        isInternalStruct nestedOnlyModel "EOS_Inner" = false ∧
        isInternalStructOfArr nestedOnlyModel "EOS_Inner" = false)) := by
  decide

/-! ## Claim C5 (corrected) -/

/-- C5, counterexample: consolidating a file whose method table contains
the no-argument method `Foo_GetBarInterface` does *not* put the key
`Bar` into the interface table (the derived key keeps the unstripped
leading token: it is `FooBar`). -/
theorem c5_counterexample :
    (consolidate accessorFiles).map
      (fun r => (alistLookup r.interfaces "Bar").isSome) = Except.ok false := by
  rfl

/-- C5, amended: consolidation extracts `Foo_GetBarInterface` as an
interface accessor under the key `FooBar` (only the literal tokens
`EOS` and `Platform` are blanked; `Foo` survives) and the method is
removed from the unhandled-method bucket. -/
theorem c5_accessor_extraction :
    (consolidate accessorFiles).map
      (fun r => ((alistLookup r.interfaces "FooBar").isSome,
                 (alistLookup r.unhandledMethods "Foo_GetBarInterface").isSome)) =
      Except.ok (true, false) := by
  rfl

/-! ## Claim C6 (corrected) -/

/-- C6, counterexample: `_find_count_field` applied to array field
`Records` over fields `FileCount`, `Records` does not return
`FileCount` (the leading tokens `file` and `record` do not match, so
there is no candidate at all). -/
theorem c6_counterexample :
    findCountField "Records" ["FileCount", "Records"] ≠ some "FileCount" := by
  decide

/-- C6, amended: for fields `FileCount`/`Records` no candidate shares a
leading token, so pairing fails (reported, `none`); exact token
matching succeeds only when the count field's leading tokens match the
array field's, e.g. `RecordCount` pairs with `Records`. -/
theorem c6_count_pairing :
    findCountField "Records" ["FileCount", "Records"] = none ∧
    findCountField "Records" ["RecordCount", "Records"] = some "RecordCount" := by
  decide

/-! ## Claim C7 (corrected) -/

/-- C7, counterexample: `RecordCount` and `RecordSize` are equally
plausible candidates for array field `Records` (equal scores, both
accepted by the exact-match branch), yet pairing silently returns the
first of them instead of reporting the ambiguity. -/
theorem c7_counterexample :
    candSim (pySplitAll (toSnakeCase "Records") "_") "RecordCount" =
      candSim (pySplitAll (toSnakeCase "Records") "_") "RecordSize" ∧
    candExact (pySplitAll (toSnakeCase "Records") "_") "RecordCount" = true ∧
    candExact (pySplitAll (toSnakeCase "Records") "_") "RecordSize" = true ∧
    findCountField "Records" ["RecordCount", "RecordSize", "Records"] =
      some "RecordCount" := by
  decide

/-! ## Claim C3 (corrected) -/

/-- C3, counterexample: at `outArgOnlyModel` the struct `EOS_Test_Info`
is an out-argument, but requirement derivation leaves its
factory-from-native flag (`from`) false — only `set_from` is set
(source lines 1407-1408). -/
theorem c3_counterexample :
    isArgOutStruct outArgOnlyModel "EOS_Test_Info" = true ∧
    (structReqs outArgOnlyModel "EOS_Test_Info").fromFlag = false := by
  decide

/-! ## Claim C4 (corrected) -/

/-- C4, counterexample: at `memberInputModel`, `EOS_X` contains the
scalar field `F : EOS_Y` and the member `EOS_Y` has `to = true`, yet
the container `EOS_X` keeps `to = false` — flags do not propagate from
member to container (the source copies them the other way round,
lines 1410-1416). -/
theorem c4_counterexample :
    "EOS_X" ∈ containersOf memberInputModel "EOS_Y" ∧
    (structReqs memberInputModel "EOS_Y").toFlag = true ∧
    (structReqs memberInputModel "EOS_X").toFlag = false := by
  decide

/-! ## Membership characterisation of the expansion list (for C1) -/

theorem mem_expendFold (M : Model) (l : List (String × List (String × String)))
    (acc : List String) (s : String) :
    s ∈ l.foldl (fun acc st =>
      let acc1 := if expandArgsCond M st.1 then acc ++ [st.1] else acc
      if expandCallbackCond M st.1 then acc1 ++ [st.1] else acc1) acc ↔
    s ∈ acc ∨ (s ∈ l.map (·.1) ∧
      (expandArgsCond M s = true ∨ expandCallbackCond M s = true)) := by
  induction l generalizing acc with
  | nil => simp
  | cons hd tl ih =>
    rw [List.foldl_cons]
    rw [ih]
    rw [show (let acc1 := if expandArgsCond M hd.1 then acc ++ [hd.1] else acc
        if expandCallbackCond M hd.1 then acc1 ++ [hd.1] else acc1) =
      (if expandCallbackCond M hd.1 then
          (if expandArgsCond M hd.1 then acc ++ [hd.1] else acc) ++ [hd.1]
        else (if expandArgsCond M hd.1 then acc ++ [hd.1] else acc)) from rfl]
    have hstep : s ∈ (if expandCallbackCond M hd.1 then
          (if expandArgsCond M hd.1 then acc ++ [hd.1] else acc) ++ [hd.1]
        else (if expandArgsCond M hd.1 then acc ++ [hd.1] else acc)) ↔
        (s ∈ acc ∨ (s = hd.1 ∧
          (expandArgsCond M hd.1 = true ∨ expandCallbackCond M hd.1 = true))) := by
      by_cases h1 : expandArgsCond M hd.1 <;> by_cases h2 : expandCallbackCond M hd.1 <;>
        simp [h1, h2, List.mem_append]
    have hbr : (s = hd.1 ∧
          (expandArgsCond M hd.1 = true ∨ expandCallbackCond M hd.1 = true)) ↔
        (s = hd.1 ∧ (expandArgsCond M s = true ∨ expandCallbackCond M s = true)) := by
      constructor <;> rintro ⟨rfl, hc⟩ <;> exact ⟨rfl, hc⟩
    rw [hstep, hbr, List.map_cons, List.mem_cons]
    generalize (expandArgsCond M s = true ∨ expandCallbackCond M s = true) = C
    tauto

/-- C1, amended: a struct is in the expanded-as-call-arguments list iff
it is in the struct table and either (a) the input threshold is
positive, its field count is at or below it, and it is *not*
internal-of-array, not an out-argument and not an output
(scalar-internal structs are *not* excluded), or (b) the callback
threshold is positive, its field count is at or below it, and it is not
internal-of-array, not an out-argument and not an input — both branches
feed the same list. -/
theorem c1_expansion_membership (M : Model) (s : String) :
    s ∈ expendedAsArgsStructs M ↔
      (s ∈ alistKeys M.structs ∧
       (expandArgsCond M s = true ∨ expandCallbackCond M s = true)) := by
  unfold expendedAsArgsStructs
  rw [mem_expendFold]
  simp [alistKeys]

/-! ## Flag monotonicity through the requirement passes (for C3, C4) -/

theorem reqLe_refl (a : Req) : reqLe a a :=
  ⟨id, id, id, id⟩

theorem reqLe_trans {a b c : Req} (h1 : reqLe a b) (h2 : reqLe b c) : reqLe a c :=
  ⟨fun h => h2.1 (h1.1 h), fun h => h2.2.1 (h1.2.1 h),
   fun h => h2.2.2.1 (h1.2.2.1 h), fun h => h2.2.2.2 (h1.2.2.2 h)⟩

theorem reqLe_or_left (a b : Req) : reqLe a (reqOr a b) := by
  unfold reqOr
  refine ⟨?_, ?_, ?_, ?_⟩ <;> intro h <;> simp [h]

theorem reqLe_or_right (a b : Req) : reqLe b (reqOr a b) := by
  unfold reqOr
  refine ⟨?_, ?_, ?_, ?_⟩ <;> intro h <;> simp [h]

theorem updFn_at (r : String → Req) (k : String) (v : Req) : updFn r k v k = v := by
  unfold updFn
  simp

theorem updFn_other {r : String → Req} {k : String} {v : Req} {x : String}
    (h : x ≠ k) : updFn r k v x = r x := by
  unfold updFn
  simp [h]

theorem stLe_updFn_ge (r : String → Req) (sn : String) (v : Req)
    (hv : reqLe (r sn) v) (x : String) : reqLe (r x) (updFn r sn v x) := by
  unfold updFn
  by_cases hx : x = sn
  · subst hx
    simp [hv]
  · simp [hx]
    exact reqLe_refl _

theorem foldl_step_le {β : Type} (step : (String → Req) → β → (String → Req))
    (hstep : ∀ r b x, reqLe (r x) (step r b x)) :
    ∀ (l : List β) (r : String → Req) (x : String), reqLe (r x) (l.foldl step r x)
  | [], _, _ => reqLe_refl _
  | b :: t, r, x =>
    reqLe_trans (hstep r b x) (foldl_step_le step hstep t (step r b) x)

theorem foldl_step_other {β : Type} (step : (String → Req) → β → (String → Req))
    (y : String) (hstep : ∀ r b, step r b y = r y) :
    ∀ (l : List β) (r : String → Req), l.foldl step r y = r y
  | [], _ => rfl
  | b :: t, r => by
    rw [List.foldl_cons, foldl_step_other step y hstep t (step r b), hstep r b]

theorem arrStep_le (M : Model) (sn : String) :
    ∀ (r : String → Req) (c : String) (x : String),
    reqLe (r x)
      ((fun (r : String → Req) (c : String) =>
        let r2 := if isInputStruct M c then
          updFn r sn { r sn with setTo := true } else r
        if isOutputStruct M c || isArgOutStruct M c then
          updFn r2 sn { r2 sn with setFrom := true, fromFlag := true }
        else r2) r c x) := by
  intro r c x
  simp only []
  have h2 : ∀ (r : String → Req), reqLe (r x)
      ((if isOutputStruct M c || isArgOutStruct M c then
        updFn r sn { r sn with setFrom := true, fromFlag := true } else r) x) := by
    intro r
    by_cases h : isOutputStruct M c || isArgOutStruct M c
    · rw [if_pos h]
      apply stLe_updFn_ge
      refine ⟨?_, ?_, ?_, ?_⟩ <;> intro hh <;> simp [hh]
    · rw [if_neg h]
      exact reqLe_refl _
  by_cases h1 : isInputStruct M c
  · rw [if_pos h1]
    refine reqLe_trans ?_ (h2 _)
    apply stLe_updFn_ge
    refine ⟨?_, ?_, ?_, ?_⟩ <;> intro hh <;> simp [hh]
  · rw [if_neg h1]
    exact h2 r

theorem arrStep_other (M : Model) (sn : String) (y : String) (hy : y ≠ sn) :
    ∀ (r : String → Req) (c : String),
    ((fun (r : String → Req) (c : String) =>
        let r2 := if isInputStruct M c then
          updFn r sn { r sn with setTo := true } else r
        if isOutputStruct M c || isArgOutStruct M c then
          updFn r2 sn { r2 sn with setFrom := true, fromFlag := true }
        else r2) r c y) = r y := by
  intro r c
  simp only []
  by_cases h1 : isInputStruct M c <;> [rw [if_pos h1]; rw [if_neg h1]] <;>
    (by_cases h2 : isOutputStruct M c || isArgOutStruct M c <;>
      [rw [if_pos h2]; rw [if_neg h2]] <;>
      simp only [updFn_other hy])

theorem pass2Step_le (M : Model) (r : String → Req) (sn x : String) :
    reqLe (r x) (reqPass2Step M r sn x) := by
  unfold reqPass2Step
  simp only []
  have step1 : ∀ (r : String → Req), reqLe (r x)
      ((if !(containersOf M sn).isEmpty then
        (containersOf M sn).foldl (fun r c => updFn r sn (reqOr (r sn) (r c))) r
      else r) x) := by
    intro r
    by_cases h : !(containersOf M sn).isEmpty
    · rw [if_pos h]
      exact foldl_step_le _ (fun r c x => stLe_updFn_ge r sn _ (reqLe_or_left _ _) x) _ r x
    · rw [if_neg h]
      exact reqLe_refl _
  have step2 : ∀ (r : String → Req), reqLe (r x)
      ((if !(containersOfArr M sn).isEmpty then
        (containersOfArr M sn).foldl (fun r c =>
          let r2 := if isInputStruct M c then
            updFn r sn { r sn with setTo := true } else r
          if isOutputStruct M c || isArgOutStruct M c then
            updFn r2 sn { r2 sn with setFrom := true, fromFlag := true }
          else r2) r
      else r) x) := by
    intro r
    by_cases h : !(containersOfArr M sn).isEmpty
    · rw [if_pos h]
      exact foldl_step_le _ (arrStep_le M sn) _ r x
    · rw [if_neg h]
      exact reqLe_refl _
  exact reqLe_trans (step1 r) (step2 _)

theorem pass2Step_other (M : Model) (r : String → Req) (sn y : String)
    (hy : y ≠ sn) : reqPass2Step M r sn y = r y := by
  unfold reqPass2Step
  simp only []
  have step1 : ∀ (r : String → Req),
      ((if !(containersOf M sn).isEmpty then
        (containersOf M sn).foldl (fun r c => updFn r sn (reqOr (r sn) (r c))) r
      else r) y) = r y := by
    intro r
    by_cases h : !(containersOf M sn).isEmpty
    · rw [if_pos h]
      exact foldl_step_other _ y (fun r c => updFn_other hy) _ r
    · rw [if_neg h]
  have step2 : ∀ (r : String → Req),
      ((if !(containersOfArr M sn).isEmpty then
        (containersOfArr M sn).foldl (fun r c =>
          let r2 := if isInputStruct M c then
            updFn r sn { r sn with setTo := true } else r
          if isOutputStruct M c || isArgOutStruct M c then
            updFn r2 sn { r2 sn with setFrom := true, fromFlag := true }
          else r2) r
      else r) y) = r y := by
    intro r
    by_cases h : !(containersOfArr M sn).isEmpty
    · rw [if_pos h]
      exact foldl_step_other _ y (arrStep_other M sn y hy) _ r
    · rw [if_neg h]
  rw [step2, step1]

theorem pass2fold_preserve (M : Model) (y : String) :
    ∀ (l : List (String × List (String × String))) (r : String → Req),
    y ∉ l.map (·.1) →
    (l.foldl (fun r st => reqPass2Step M r st.1) r) y = r y
  | [], _, _ => rfl
  | hd :: tl, r, h => by
    have hhd : y ≠ hd.1 := by
      intro he
      exact h (by simp [he])
    have htl : y ∉ tl.map (·.1) := fun hm => h (by simp [hm])
    rw [List.foldl_cons, pass2fold_preserve M y tl _ htl, pass2Step_other M r hd.1 y hhd]

theorem csfold_pull (X Y : String) :
    ∀ (cs : List String) (r : String → Req), X ∈ cs →
    reqLe (r X) ((cs.foldl (fun r c => updFn r Y (reqOr (r Y) (r c))) r) Y)
  | [], _, hX => absurd hX (List.not_mem_nil _)
  | c :: ct, r, hX => by
    rw [List.foldl_cons]
    by_cases hc : X ∈ ct
    · exact reqLe_trans
        (stLe_updFn_ge r Y _ (reqLe_or_left _ _) X)
        (csfold_pull X Y ct _ hc)
    · have hcx : c = X := by
        rcases List.mem_cons.mp hX with h | h
        · exact h.symm
        · exact absurd h hc
      have hA : reqLe (r X) ((updFn r Y (reqOr (r Y) (r c))) Y) := by
        rw [updFn_at, hcx]
        exact reqLe_or_right _ _
      exact reqLe_trans hA
        (foldl_step_le _ (fun r c x => stLe_updFn_ge r Y _ (reqLe_or_left _ _) x) ct _ Y)

theorem pass2Step_pull (M : Model) (r : String → Req) (X Y : String)
    (hX : X ∈ containersOf M Y) :
    reqLe (r X) (reqPass2Step M r Y Y) := by
  unfold reqPass2Step
  simp only []
  have hne : (!(containersOf M Y).isEmpty) = true := by
    cases hcs : containersOf M Y with
    | nil => rw [hcs] at hX; exact absurd hX (List.not_mem_nil _)
    | cons a t => simp
  have hA : reqLe (r X)
      ((if !(containersOf M Y).isEmpty then
        (containersOf M Y).foldl (fun r c => updFn r Y (reqOr (r Y) (r c))) r
      else r) Y) := by
    rw [if_pos hne]
    exact csfold_pull X Y (containersOf M Y) r hX
  by_cases h : !(containersOfArr M Y).isEmpty
  · rw [if_pos h]
    exact reqLe_trans hA (foldl_step_le _ (arrStep_le M Y) _ _ Y)
  · rw [if_neg h]
    exact hA

theorem pass2_pull (M : Model) (X Y : String) (hX : X ∈ containersOf M Y) :
    ∀ (l : List (String × List (String × String))) (r : String → Req),
    Y ∈ l.map (·.1) →
    reqLe (r X) ((l.foldl (fun r st => reqPass2Step M r st.1) r) Y)
  | [], _, hY => absurd hY (List.not_mem_nil _)
  | hd :: tl, r, hY => by
    rw [List.foldl_cons]
    by_cases hmem : Y ∈ tl.map (·.1)
    · exact reqLe_trans (pass2Step_le M r hd.1 X) (pass2_pull M X Y hX tl _ hmem)
    · have hor : Y = hd.1 ∨ Y ∈ tl.map (·.1) := by
        rw [List.map_cons, List.mem_cons] at hY
        exact hY
      have hhd : hd.1 = Y := by
        rcases hor with h | h
        · exact h.symm
        · exact absurd h hmem
      rw [hhd, pass2fold_preserve M Y tl _ hmem]
      exact pass2Step_pull M r X Y hX

theorem foldl_updFn_preserve (M : Model) (s : String) :
    ∀ (l : List (String × List (String × String))) (r : String → Req),
    s ∉ l.map (·.1) →
    (l.foldl (fun r st => updFn r st.1 (reqPass1Entry M st.1)) r) s = r s
  | [], _, _ => rfl
  | hd :: tl, r, h => by
    have hhd : s ≠ hd.1 := fun he => h (by simp [he])
    have htl : s ∉ tl.map (·.1) := fun hm => h (by simp [hm])
    rw [List.foldl_cons, foldl_updFn_preserve M s tl _ htl, updFn_other hhd]

theorem reqPass1_at_aux (M : Model) (s : String) :
    ∀ (l : List (String × List (String × String))) (r : String → Req),
    s ∈ l.map (·.1) →
    (l.foldl (fun r st => updFn r st.1 (reqPass1Entry M st.1)) r) s = reqPass1Entry M s
  | [], _, h => absurd h (List.not_mem_nil _)
  | hd :: tl, r, h => by
    rw [List.foldl_cons]
    by_cases hmem : s ∈ tl.map (·.1)
    · exact reqPass1_at_aux M s tl _ hmem
    · have hor : s = hd.1 ∨ s ∈ tl.map (·.1) := by
        rw [List.map_cons, List.mem_cons] at h
        exact h
      have hhd : hd.1 = s := by
        rcases hor with h2 | h2
        · exact h2.symm
        · exact absurd h2 hmem
      rw [hhd, foldl_updFn_preserve M s tl _ hmem, updFn_at]

theorem reqPass1_at (M : Model) (s : String) (h : s ∈ alistKeys M.structs) :
    reqPass1 M s = reqPass1Entry M s :=
  reqPass1_at_aux M s M.structs _ (by simpa [alistKeys] using h)

theorem reqPass2_ge (M : Model) (r : String → Req) (x : String) :
    reqLe (r x) (reqPass2 M r x) := by
  unfold reqPass2
  exact foldl_step_le
    (fun (r : String → Req) (st : String × List (String × String)) =>
      reqPass2Step M r st.1)
    (fun r b x => pass2Step_le M r b.1 x) M.structs r x

theorem structReqs_ge_pass1 (M : Model) (x : String) :
    reqLe (reqPass1 M x) (structReqs M x) :=
  reqPass2_ge M (reqPass1 M) x

theorem reqPass1Entry_output (M : Model) (s : String) (h : isOutputStruct M s = true) :
    (reqPass1Entry M s).setFrom = true ∧ (reqPass1Entry M s).fromFlag = true := by
  unfold reqPass1Entry
  simp only []
  rw [if_pos h]
  by_cases ha : isArgOutStruct M s
  · rw [if_pos ha]
    exact ⟨rfl, rfl⟩
  · rw [if_neg ha]
    exact ⟨rfl, rfl⟩

theorem reqPass1Entry_argout (M : Model) (s : String) (h : isArgOutStruct M s = true) :
    (reqPass1Entry M s).setFrom = true := by
  unfold reqPass1Entry
  simp only []
  rw [if_pos h]

/-- C3, amended: an output struct gets both the convert-from-native
flag (`set_from`) and the factory-from-native flag (`from`); an
out-argument struct gets only `set_from` (it gets `from` only when it
is also an output). -/
theorem c3_output_flags (M : Model) (s : String) (hs : s ∈ alistKeys M.structs) :
    (isOutputStruct M s = true →
      (structReqs M s).setFrom = true ∧ (structReqs M s).fromFlag = true) ∧
    (isArgOutStruct M s = true → (structReqs M s).setFrom = true) := by
  have h1 : reqPass1 M s = reqPass1Entry M s := reqPass1_at M s hs
  have h2 : reqLe (reqPass1 M s) (structReqs M s) := structReqs_ge_pass1 M s
  rw [h1] at h2
  constructor
  · intro ho
    obtain ⟨e1, e2⟩ := reqPass1Entry_output M s ho
    exact ⟨h2.1 e1, h2.2.1 e2⟩
  · intro ha
    exact h2.1 (reqPass1Entry_argout M s ha)

/-- Witness for C3 at `callbackOutputModel`: `EOS_Foo_Info` is an output
struct and ends with both flags set. -/
theorem c3_witness :
    isOutputStruct callbackOutputModel "EOS_Foo_Info" = true ∧
    ((structReqs callbackOutputModel "EOS_Foo_Info").setFrom = true ∧
     (structReqs callbackOutputModel "EOS_Foo_Info").fromFlag = true) :=
  ⟨by decide, (c3_output_flags callbackOutputModel "EOS_Foo_Info" (by decide)).1 (by decide)⟩

/-- C4, amended: the propagation direction is reversed relative to the
claim — for every pair of structs X and Y where X contains a scalar
(non-array) field whose decayed type is Y, the *member* Y ends with
every capability flag that the roles of the *container* X gave X in the
first pass (the container inherits nothing from the member). -/
theorem c4_member_inherits_container (M : Model) (X Y : String)
    (hY : Y ∈ alistKeys M.structs) (hX : X ∈ containersOf M Y) :
    reqLe (reqPass1 M X) (structReqs M Y) := by
  unfold structReqs reqPass2
  exact pass2_pull M X Y hX M.structs (reqPass1 M) (by simpa [alistKeys] using hY)

/-- Witness for C4 at `containerInputModel`: the container `EOS_X` is an
input, and its member `EOS_Y` ends with `to = true`. -/
theorem c4_witness :
    (reqPass1 containerInputModel "EOS_X").toFlag = true ∧
    (structReqs containerInputModel "EOS_Y").toFlag = true :=
  ⟨by decide,
   (c4_member_inherits_container containerInputModel "EOS_X" "EOS_Y"
      (by decide) (by decide)).2.2.2 (by decide)⟩

/-! ## Ambiguous pairing characterisation (for C7) -/

theorem findCountGo_no_exact (spl : List String) :
    ∀ (fields sims : List String), (∀ f ∈ fields, candExact spl f = false) →
    findCountGo spl fields sims =
      (if (sims ++ fields.filter (fun f => candOverlap spl f)).length = 1
       then some (headFirst (sims ++ fields.filter (fun f => candOverlap spl f)))
       else none)
  | [], sims, _ => by simp [findCountGo]
  | f :: rest, sims, h => by
    have hf := h f (by simp)
    have hrest : ∀ g ∈ rest, candExact spl g = false := fun g hg => h g (by simp [hg])
    unfold findCountGo
    by_cases hcs : isCountSuffix f
    · have hex : ¬ (candMin spl f ≤ candSim spl f) := by
        intro hle
        rw [candExact, hcs, Bool.true_and, decide_eq_true hle] at hf
        simp at hf
      rw [if_pos hcs, if_neg hex]
      by_cases hpos : 0 < candSim spl f
      · have hov : candOverlap spl f = true := by
          rw [candOverlap, hcs]
          simp [hex, hpos]
        rw [if_pos hpos, findCountGo_no_exact spl rest (sims ++ [f]) hrest]
        rw [List.filter_cons_of_pos (by simp [hov]), List.append_assoc]
        rfl
      · have hov : candOverlap spl f = false := by
          rw [candOverlap]
          simp [hpos]
        rw [if_neg hpos, findCountGo_no_exact spl rest sims hrest]
        rw [List.filter_cons_of_neg (by simp [hov])]
    · have hov : candOverlap spl f = false := by
        rw [candOverlap]
        simp [hcs]
      rw [if_neg hcs, findCountGo_no_exact spl rest sims hrest]
      rw [List.filter_cons_of_neg (by simp [hov])]

/-- C7, amended: when *no* candidate matches exactly and two or more
candidates share partial overlap, pairing returns no candidate (the
ambiguity is reported and the run continues — the fall-through yields
`None`, the caller keeps going, the commented-out `exit()` is never
taken); a tie between *exact* matches, however, is resolved silently in
favour of the first candidate in field order. -/
theorem c7_ambiguous_none (field : String) (fields : List String)
    (hex : ∀ f ∈ fields, candExact (pySplitAll (toSnakeCase field) "_") f = false)
    (hov : 2 ≤ (fields.filter
      (fun f => candOverlap (pySplitAll (toSnakeCase field) "_") f)).length) :
    findCountField field fields = none := by
  unfold findCountField
  rw [findCountGo_no_exact _ fields [] hex]
  rw [if_neg (by simp; omega)]

/-! ## Claim C8 (corrected) -/

/-- C8, counterexample: a struct block containing the unsplittable
declaration line `badline` does *not* halt the scanner — scanning
completes normally with the field skipped and the line reported
(source lines 1617-1619 print and continue). -/
theorem c8_counterexample :
    parseFile ["EOS_STRUCT(EOS_Test, (", "badline", "));"] =
      Except.ok ⟨⟨[], [], [], [("EOS_Test", [])], []⟩, [], ["ERROR: badline"]⟩ := by
  rfl

/-- C8, amended: inside a struct block, a declaration line that cannot
be split into a (type, name) pair is reported and skipped and the run
continues (the struct ends with no fields and one report); an enum or
struct block that never reaches its terminator, by contrast, fails with
the out-of-bounds error of `lines[i]` and halts. -/
theorem c8_report_and_continue (bad : String)
    (h1 : pyStartswith bad "));" = false)
    (h2 : pyRstrip (pyLstrip bad "\t") "\n" = bad)
    (h3 : pyStartswith bad "/" = false)
    (h4 : pyStartswith bad "*" = false)
    (h5 : pyStartswith bad " " = false)
    (h6 : bad.data.isEmpty = false)
    (h7 : pySplitAll bad ";" = [bad])
    (h8 : pyStartswith bad "union" = false)
    (h9 : pyRsplitN bad " " 1 = [bad]) :
    (parseFile ["EOS_STRUCT(EOS_Test, (", bad, "));"] =
      Except.ok ⟨⟨[], [], [], [("EOS_Test", [])], []⟩, [], ["ERROR: " ++ bad]⟩) ∧
    parseFile ["EOS_STRUCT(EOS_Test, ("] = Except.error "IndexError" ∧
    parseFile ["EOS_ENUM(EOS_ETest,"] = Except.error "IndexError" := by
  refine ⟨?_, by rfl, by rfl⟩
  have hscan : scanStructBlockF 2 [bad, "));"] [] [] =
      Except.ok ([], ["ERROR: " ++ bad], []) := by
    have hterm : pyStartswith "));" "));" = true := by decide
    simp only [scanStructBlockF, h1, h2, h3, h4, h5, h6, h7, h8, h9, headFirst,
      List.headD, Bool.false_eq_true, if_false, if_true]
    simp [scanStructBlockF, hterm]
  have d1 : pyStartswith "EOS_STRUCT(EOS_Test, (" "#define EOS_" = false := by decide
  have d2 : pyIn "typedef struct " "EOS_STRUCT(EOS_Test, (" = false := by decide
  have d3 : pyStartswith "EOS_STRUCT(EOS_Test, (" "EOS_ENUM(" = false := by decide
  have d4 : pyStartswith "EOS_STRUCT(EOS_Test, (" "EOS_DECLARE_FUNC" = false := by decide
  have d5 : pyStartswith "EOS_STRUCT(EOS_Test, (" "EOS_DECLARE_CALLBACK" = false := by
    decide
  have d6 : pyStartswith "EOS_STRUCT(EOS_Test, (" "EOS_STRUCT" = true := by decide
  have dname : pyRstrip (pyRstrip (pyLstrip
      (pyLstrip "EOS_STRUCT(EOS_Test, (" "EOS_STRUCT") "(") "\n") ", (" = "EOS_Test" := by
    decide
  have hlen : ([bad, "));"] : List String).length = 2 := rfl
  unfold parseFile
  simp only [parseLinesF, d1, d2, d3, d4, d5, d6, dname, hlen, Bool.false_and,
    Bool.true_and, Bool.false_eq_true, if_false, if_true, alistInsert]
  rw [hscan]
  rfl

/-- Witness for C8 at the concrete line `badline`: the hypotheses hold
by evaluation and the unterminated-struct half gives the halting
error. -/
theorem c8_witness :
    pyStartswith "badline" "));" = false ∧
    parseFile ["EOS_STRUCT(EOS_Test, ("] = Except.error "IndexError" :=
  ⟨by decide,
   (c8_report_and_continue "badline" (by decide) (by decide) (by decide) (by decide)
      (by decide) (by decide) (by decide) (by decide) (by decide)).2.1⟩

/-- Witness for C7: `BucketCount` and `BucketSize` both partially
overlap `BucketEntries` with no exact match, and pairing returns
nothing. -/
theorem c7_witness :
    (∀ f ∈ ["BucketCount", "BucketSize"],
      candExact (pySplitAll (toSnakeCase "BucketEntries") "_") f = false) ∧
    2 ≤ ((["BucketCount", "BucketSize"] : List String).filter
      (fun f => candOverlap (pySplitAll (toSnakeCase "BucketEntries") "_") f)).length ∧
    findCountField "BucketEntries" ["BucketCount", "BucketSize"] = none :=
  ⟨by decide, by decide,
   c7_ambiguous_none "BucketEntries" ["BucketCount", "BucketSize"] (by decide) (by decide)⟩

end EosGen

namespace EosGen

theorem alistLookup_insert_self (l : List (String × α)) (k : String) (v : α) :
    alistLookup (alistInsert l k v) k = some v := by
  induction l with
  | nil => simp [alistInsert, alistLookup]
  | cons p t ih =>
    by_cases hp : p.1 = k
    · simp [alistInsert, hp, alistLookup]
    · simp [alistInsert, hp, alistLookup, ih]

theorem alistLookup_insert_ne (l : List (String × α)) (k : String) (v : α)
    {key : String} (h : key ≠ k) :
    alistLookup (alistInsert l k v) key = alistLookup l key := by
  induction l with
  | nil => simp [alistInsert, alistLookup, Ne.symm h]
  | cons p t ih =>
    by_cases hp : p.1 = k
    · simp only [alistInsert, hp, if_true]
      simp [alistLookup, Ne.symm h, hp]
    · simp only [alistInsert, hp, if_false]
      by_cases hk : p.1 = key
      · simp [alistLookup, hk]
      · simp [alistLookup, hk, ih]

theorem alistInsert_fst_of_mem {l : List (String × α)} {k : String} (v : α)
    (h : k ∈ l.map (·.1)) :
    (alistInsert l k v).map (·.1) = l.map (·.1) := by
  induction l with
  | nil => simp at h
  | cons p t ih =>
    by_cases hp : p.1 = k
    · simp [alistInsert, hp]
    · rw [List.map_cons, List.mem_cons] at h
      have ht : k ∈ t.map (·.1) := by
        rcases h with h2 | h2
        · exact absurd h2.symm hp
        · exact h2
      simp [alistInsert, hp, ih ht]

theorem alistInsert_fst_of_not_mem {l : List (String × α)} {k : String} (v : α)
    (h : k ∉ l.map (·.1)) :
    (alistInsert l k v).map (·.1) = l.map (·.1) ++ [k] := by
  induction l with
  | nil => simp [alistInsert]
  | cons p t ih =>
    have hp : p.1 ≠ k := by
      intro he
      exact h (by simp [he])
    have ht : k ∉ t.map (·.1) := fun hm => h (by simp [hm])
    simp [alistInsert, hp, ih ht]

theorem alistInsert_append_of_not_mem {l : List (String × α)} {k : String} (v : α)
    (h : k ∉ l.map (·.1)) :
    alistInsert l k v = l ++ [(k, v)] := by
  induction l with
  | nil => simp [alistInsert]
  | cons p t ih =>
    have hp : p.1 ≠ k := by
      intro he
      exact h (by simp [he])
    have ht : k ∉ t.map (·.1) := fun hm => h (by simp [hm])
    simp [alistInsert, hp, ih ht]

theorem alistModify_lookup_self (l : List (String × α)) (k : String) (g : α → α) :
    alistLookup (alistModify l k g) k = (alistLookup l k).map g := by
  induction l with
  | nil => simp [alistModify, alistLookup]
  | cons p t ih =>
    by_cases hp : p.1 = k
    · simp [alistModify, hp, alistLookup]
    · simp [alistModify, hp, alistLookup, ih]

theorem alistModify_lookup_ne (l : List (String × α)) (k : String) (g : α → α)
    {key : String} (h : key ≠ k) :
    alistLookup (alistModify l k g) key = alistLookup l key := by
  induction l with
  | nil => simp [alistModify]
  | cons p t ih =>
    by_cases hp : p.1 = k
    · simp only [alistModify, hp, if_true]
      simp [alistLookup, Ne.symm h, hp]
    · simp only [alistModify, hp, if_false]
      by_cases hk : p.1 = key
      · simp [alistLookup, hk]
      · simp [alistLookup, hk, ih]

theorem alistModify_fst (l : List (String × α)) (k : String) (g : α → α) :
    (alistModify l k g).map (·.1) = l.map (·.1) := by
  induction l with
  | nil => rfl
  | cons p t ih =>
    by_cases hp : p.1 = k
    · simp [alistModify, hp]
    · simp [alistModify, hp, ih]

theorem alistLookup_isSome_iff (l : List (String × α)) (k : String) :
    (alistLookup l k).isSome = true ↔ k ∈ l.map (·.1) := by
  induction l with
  | nil => simp [alistLookup]
  | cons p t ih =>
    by_cases hp : p.1 = k
    · simp [alistLookup, hp]
    · simp [alistLookup, hp, ih, Ne.symm hp]

theorem alistPop_count (n : String) :
    ∀ (l l' : List (String × α)), alistPop l n = Except.ok l' →
    ((l'.map (·.1)).count n) + 1 = (l.map (·.1)).count n
  | [], _, h => by simp [alistPop] at h
  | p :: t, l', h => by
    by_cases hp : p.1 = n
    · rw [alistPop, if_pos hp] at h
      cases h
      rw [List.map_cons, hp, List.count_cons_self]
    · rw [alistPop, if_neg hp] at h
      cases ht : alistPop t n with
      | error e => rw [ht] at h; simp [Except.map] at h
      | ok t' =>
        rw [ht] at h
        simp only [Except.map] at h
        cases h
        have hrec := alistPop_count n t t' ht
        rw [List.map_cons, List.map_cons,
          List.count_cons_of_ne (fun he => hp he.symm),
          List.count_cons_of_ne (fun he => hp he.symm)]
        exact hrec

theorem alistPop_count_ne (n : String) {m : String} (hm : m ≠ n) :
    ∀ (l l' : List (String × α)), alistPop l n = Except.ok l' →
    (l'.map (·.1)).count m = (l.map (·.1)).count m
  | [], _, h => by simp [alistPop] at h
  | p :: t, l', h => by
    by_cases hp : p.1 = n
    · rw [alistPop, if_pos hp] at h
      cases h
      rw [List.map_cons, hp, List.count_cons_of_ne hm]
    · rw [alistPop, if_neg hp] at h
      cases ht : alistPop t n with
      | error e => rw [ht] at h; simp [Except.map] at h
      | ok t' =>
        rw [ht] at h
        simp only [Except.map] at h
        cases h
        have hrec := alistPop_count_ne n hm t t' ht
        rw [List.map_cons, List.map_cons]
        by_cases hq : m = p.1
        · rw [← hq, List.count_cons_self, List.count_cons_self, hrec]
        · rw [List.count_cons_of_ne hq, List.count_cons_of_ne hq, hrec]

theorem alistLookup_of_mem_nodup {l : List (String × α)} {p : String × α}
    (hnd : (l.map (·.1)).Nodup) (hp : p ∈ l) : alistLookup l p.1 = some p.2 := by
  induction l with
  | nil => simp at hp
  | cons q t ih =>
    rw [List.map_cons] at hnd
    obtain ⟨h1, h2⟩ := List.nodup_cons.mp hnd
    rcases List.mem_cons.mp hp with h | h
    · subst h
      simp [alistLookup]
    · have hq : q.1 ≠ p.1 := by
        intro he
        exact h1 (he ▸ List.mem_map.mpr ⟨p, h, rfl⟩)
      simp only [alistLookup, hq, if_false]
      exact ih h2 h

theorem merge_fold_self {α : Type} :
    ∀ (l acc : List (String × α)), (∀ p ∈ l, p.1 ∉ acc.map (·.1)) →
    (l.map (·.1)).Nodup →
    l.foldl (fun a p => alistInsert a p.1 p.2) acc = acc ++ l
  | [], acc, _, _ => by simp
  | p :: t, acc, hdis, hnd => by
    rw [List.foldl_cons]
    rw [List.map_cons] at hnd
    obtain ⟨hnd1, hnd2⟩ := List.nodup_cons.mp hnd
    have hp : p.1 ∉ acc.map (·.1) := hdis p (by simp)
    rw [alistInsert_append_of_not_mem p.2 hp]
    have hdis2 : ∀ q ∈ t, q.1 ∉ (acc ++ [(p.1, p.2)]).map (·.1) := by
      intro q hq hm
      rw [List.map_append, List.mem_append] at hm
      rcases hm with hm | hm
      · exact hdis q (by simp [hq]) hm
      · simp at hm
        exact hnd1 (hm ▸ List.mem_map.mpr ⟨q, hq, rfl⟩)
    rw [merge_fold_self t (acc ++ [(p.1, p.2)]) hdis2 hnd2]
    simp

theorem merge_fold_names {α : Type} :
    ∀ (l acc : List (String × α)) (x : String),
    x ∈ (l.foldl (fun a p => alistInsert a p.1 p.2) acc).map (·.1) →
    x ∈ acc.map (·.1) ∨ x ∈ l.map (·.1)
  | [], acc, x, h => Or.inl (by simpa using h)
  | p :: t, acc, x, h => by
    rw [List.foldl_cons] at h
    rcases merge_fold_names t (alistInsert acc p.1 p.2) x h with h2 | h2
    · by_cases hm : p.1 ∈ acc.map (·.1)
      · rw [alistInsert_fst_of_mem p.2 hm] at h2
        exact Or.inl h2
      · rw [alistInsert_fst_of_not_mem p.2 hm] at h2
        rw [List.mem_append] at h2
        rcases h2 with h2 | h2
        · exact Or.inl h2
        · simp at h2
          exact Or.inr (by simp [h2])
    · exact Or.inr (by simp [h2])

end EosGen

namespace EosGen

theorem fileHandles_single (k : String) (fi : FileInfo) :
    fileHandles [(k, fi)] k = fi.handles := by
  simp [fileHandles, alistLookup]

theorem fileMethods_single (k : String) (fi : FileInfo) :
    fileMethods [(k, fi)] k = fi.methods := by
  simp [fileMethods, alistLookup]

theorem fileCallbacks_single (k : String) (fi : FileInfo) :
    fileCallbacks [(k, fi)] k = fi.callbacks := by
  simp [fileCallbacks, alistLookup]

theorem alistModify_single (k : String) (fi : FileInfo) (g : FileInfo → FileInfo) :
    alistModify [(k, fi)] k g = [(k, g fi)] := by
  simp [alistModify]

theorem exceptBind_ok {α β : Type} {x : Except String α} {g : α → Except String β}
    {b : β} (h : (x >>= g) = Except.ok b) : ∃ a, x = Except.ok a ∧ g a = Except.ok b := by
  cases x with
  | error e => simp [Bind.bind, Except.bind] at h
  | ok a => exact ⟨a, rfl, by simpa [Bind.bind, Except.bind] using h⟩

theorem alistLookup_mem {l : List (String × α)} {k : String} {v : α}
    (h : alistLookup l k = some v) : (k, v) ∈ l := by
  induction l with
  | nil => simp [alistLookup] at h
  | cons p t ih =>
    by_cases hp : p.1 = k
    · rw [alistLookup, if_pos hp] at h
      cases h
      rw [← hp]
      exact List.mem_cons_self p t
    · rw [alistLookup, if_neg hp] at h
      exact List.mem_cons_of_mem _ (ih h)

/-- After the processed method is already in the to-remove list, the
argument scan changes only the remembered callback type. -/
theorem argScan_stuck (k n : String) (mi : MethodInfo) :
    ∀ (args : List Arg) (ht ct : String) (files : List (String × FileInfo))
      (tr : List String), tr.contains n = true →
    ∃ ct2, args.foldl (processArgsStep k n mi) (ht, ct, files, tr) =
      (ht, ct2, files, tr)
  | [], ht, ct, _, _, _ => ⟨ct, rfl⟩
  | a :: rest, ht, ct, files, tr, htr => by
    rw [List.foldl_cons]
    have hstep : processArgsStep k n mi (ht, ct, files, tr) a =
        (ht, if pyEndswith (decayEosType a.type) "Callback" ||
              pyEndswith (decayEosType a.type) "CallbackV2"
            then decayEosType a.type else ct, files, tr) := by
      unfold processArgsStep
      simp only [htr, Bool.not_true, Bool.false_eq_true, if_false]
      by_cases hm : (alistLookup (fileHandles files k) (decayEosType a.type)).isSome
      · rw [if_pos hm]
      · rw [if_neg hm]
    rw [hstep]
    exact argScan_stuck k n mi rest ht _ files tr htr

end EosGen

namespace EosGen

/-- The argument scan of the method being traced: the first argument
whose decayed type is a handle key moves the method into that handle,
and nothing else changes (besides the remembered callback type). -/
theorem argScan_move (k name : String) (mi : MethodInfo) (h : String) :
    ∀ (args : List Arg) (ct : String) (fi : FileInfo) (tr : List String),
    tr.contains name = false →
    (args.map (fun a => decayEosType a.type)).find?
      (fun t => (alistLookup fi.handles t).isSome) = some h →
    ∃ ct2, args.foldl (processArgsStep k name mi) ("", ct, [(k, fi)], tr) =
      (h, ct2, [(k, { fi with handles := alistModify fi.handles h (fun hh =>
        { hh with methods := alistInsert hh.methods name mi }) })], tr ++ [name])
  | [], _, _, _, _, hfind => by simp at hfind
  | a :: rest, ct, fi, tr, htr, hfind => by
    rw [List.map_cons] at hfind
    by_cases hm : (alistLookup fi.handles (decayEosType a.type)).isSome
    · simp only [List.find?, hm] at hfind
      have ha : decayEosType a.type = h := Option.some.inj hfind
      rw [List.foldl_cons]
      have hstep : processArgsStep k name mi ("", ct, [(k, fi)], tr) a =
          (h,
           if pyEndswith (decayEosType a.type) "Callback" ||
              pyEndswith (decayEosType a.type) "CallbackV2"
           then decayEosType a.type else ct,
           [(k, { fi with handles := alistModify fi.handles h (fun hh =>
             { hh with methods := alistInsert hh.methods name mi }) })],
           tr ++ [name]) := by
        have hmh : (alistLookup fi.handles h).isSome = true := ha ▸ hm
        unfold processArgsStep
        simp only [fileHandles_single, ha, hm, hmh, htr, alistModify_single,
          Bool.not_false, if_true]
      rw [hstep]
      have hstuck := argScan_stuck k name mi rest h
        (if pyEndswith (decayEosType a.type) "Callback" ||
            pyEndswith (decayEosType a.type) "CallbackV2"
         then decayEosType a.type else ct)
        [(k, { fi with handles := alistModify fi.handles h (fun hh =>
          { hh with methods := alistInsert hh.methods name mi }) })]
        (tr ++ [name]) (by simp)
      exact hstuck
    · have hm2 : (alistLookup fi.handles (decayEosType a.type)).isSome = false := by
        simpa using hm
      simp only [List.find?, hm2] at hfind
      rw [List.foldl_cons]
      have hstep : processArgsStep k name mi ("", ct, [(k, fi)], tr) a =
          ("",
           if pyEndswith (decayEosType a.type) "Callback" ||
              pyEndswith (decayEosType a.type) "CallbackV2"
           then decayEosType a.type else ct,
           [(k, fi)], tr) := by
        unfold processArgsStep
        simp only [fileHandles_single, hm, Bool.false_eq_true, if_false]
      rw [hstep]
      exact argScan_move k name mi h rest _ fi tr htr hfind

end EosGen

namespace EosGen

theorem processArgsStep_move (k n2 : String) (mi2 : MethodInfo) (ht ct : String)
    (fi : FileInfo) (tr : List String) (a : Arg)
    (hm : (alistLookup fi.handles (decayEosType a.type)).isSome = true)
    (htr : tr.contains n2 = false) :
    processArgsStep k n2 mi2 (ht, ct, [(k, fi)], tr) a =
      (decayEosType a.type,
       if pyEndswith (decayEosType a.type) "Callback" ||
          pyEndswith (decayEosType a.type) "CallbackV2"
       then decayEosType a.type else ct,
       [(k, { fi with handles := (alistModify fi.handles (decayEosType a.type)
         (fun hh => { hh with methods := alistInsert hh.methods n2 mi2 })) })],
       tr ++ [n2]) := by
  unfold processArgsStep
  simp only [fileHandles_single, hm, htr, alistModify_single, Bool.not_false, if_true]

theorem processArgsStep_skip1 (k n2 : String) (mi2 : MethodInfo) (ht ct : String)
    (fi : FileInfo) (tr : List String) (a : Arg)
    (htr : tr.contains n2 = true) :
    processArgsStep k n2 mi2 (ht, ct, [(k, fi)], tr) a =
      (ht,
       if pyEndswith (decayEosType a.type) "Callback" ||
          pyEndswith (decayEosType a.type) "CallbackV2"
       then decayEosType a.type else ct,
       [(k, fi)], tr) := by
  unfold processArgsStep
  simp only [fileHandles_single, htr, Bool.not_true, Bool.false_eq_true, if_false]
  by_cases hm : (alistLookup fi.handles (decayEosType a.type)).isSome = true
  · simp only [hm, if_true]
  · simp only [hm, if_false]
    simp

theorem processArgsStep_skip2 (k n2 : String) (mi2 : MethodInfo) (ht ct : String)
    (fi : FileInfo) (tr : List String) (a : Arg)
    (hm : (alistLookup fi.handles (decayEosType a.type)).isSome = false) :
    processArgsStep k n2 mi2 (ht, ct, [(k, fi)], tr) a =
      (ht,
       if pyEndswith (decayEosType a.type) "Callback" ||
          pyEndswith (decayEosType a.type) "CallbackV2"
       then decayEosType a.type else ct,
       [(k, fi)], tr) := by
  unfold processArgsStep
  simp only [fileHandles_single, hm, Bool.false_eq_true, if_false]

/-- The effect of inserting a differently-named method into one handle
on the name traces used by the ownership proof. -/
theorem hMethods_insert_other (fi : FileInfo) (A n2 : String) (mi2 : MethodInfo)
    (name : String) (hne : n2 ≠ name)
    (hm : (alistLookup fi.handles A).isSome = true) :
    let fi2 : FileInfo := { fi with handles := (alistModify fi.handles A
      (fun hh => { hh with methods := alistInsert hh.methods n2 mi2 })) }
    alistKeys fi2.handles = alistKeys fi.handles ∧
    (∀ key, alistLookup (hMethods fi2 key) name = alistLookup (hMethods fi key) name) ∧
    (∀ key, ((hMethods fi2 key).map (·.1)).count name =
      ((hMethods fi key).map (·.1)).count name) := by
  intro fi2
  obtain ⟨hi, hhi⟩ : ∃ hi, alistLookup fi.handles A = some hi := by
    cases hl : alistLookup fi.handles A with
    | none => rw [hl] at hm; simp at hm
    | some hi => exact ⟨hi, rfl⟩
  refine ⟨?_, ?_, ?_⟩
  · show (alistModify fi.handles A _).map (·.1) = _
    rw [alistModify_fst]
    rfl
  · intro key
    by_cases hk : key = A
    · subst hk
      show alistLookup (hMethods fi2 key) name = _
      have h2 : hMethods fi2 key = alistInsert hi.methods n2 mi2 := by
        unfold hMethods
        show (match alistLookup (alistModify fi.handles key _) key with
          | some hi => hi.methods | none => []) = _
        rw [alistModify_lookup_self, hhi]
        rfl
      rw [h2]
      have h3 : hMethods fi key = hi.methods := by
        unfold hMethods
        rw [hhi]
      rw [h3]
      exact alistLookup_insert_ne _ _ _ (Ne.symm hne)
    · have h2 : hMethods fi2 key = hMethods fi key := by
        unfold hMethods
        show (match alistLookup (alistModify fi.handles A _) key with
          | some hi => hi.methods | none => []) = _
        rw [alistModify_lookup_ne _ _ _ hk]
      rw [h2]
  · intro key
    by_cases hk : key = A
    · subst hk
      have h2 : hMethods fi2 key = alistInsert hi.methods n2 mi2 := by
        unfold hMethods
        show (match alistLookup (alistModify fi.handles key _) key with
          | some hi => hi.methods | none => []) = _
        rw [alistModify_lookup_self, hhi]
        rfl
      have h3 : hMethods fi key = hi.methods := by
        unfold hMethods
        rw [hhi]
      rw [h2, h3]
      by_cases hmem : n2 ∈ hi.methods.map (·.1)
      · rw [alistInsert_fst_of_mem _ hmem]
      · rw [alistInsert_fst_of_not_mem _ hmem, List.count_append]
        simp [List.count_singleton, Ne.symm hne]
    · have h2 : hMethods fi2 key = hMethods fi key := by
        unfold hMethods
        show (match alistLookup (alistModify fi.handles A _) key with
          | some hi => hi.methods | none => []) = _
        rw [alistModify_lookup_ne _ _ _ hk]
      rw [h2]

end EosGen

namespace EosGen

/-- Scanning the arguments of a method named differently from the
traced method changes no name trace: it may move that other method
into one handle and extend the to-remove list with its own name. -/
theorem argScan_preserves (k n2 : String) (mi2 : MethodInfo) (name : String)
    (hne : n2 ≠ name) :
    ∀ (args : List Arg) (ht ct : String) (fi : FileInfo) (tr : List String),
    ∃ ht2 ct2 fi2 ext,
      args.foldl (processArgsStep k n2 mi2) (ht, ct, [(k, fi)], tr) =
        (ht2, ct2, [(k, fi2)], tr ++ ext) ∧
      alistKeys fi2.handles = alistKeys fi.handles ∧
      fi2.methods = fi.methods ∧
      fi2.callbacks = fi.callbacks ∧
      (∀ key, alistLookup (hMethods fi2 key) name = alistLookup (hMethods fi key) name) ∧
      (∀ key, ((hMethods fi2 key).map (·.1)).count name =
        ((hMethods fi key).map (·.1)).count name) ∧
      (∀ x ∈ ext, x = n2)
  | [], ht, ct, fi, tr =>
    ⟨ht, ct, fi, [], by simp, rfl, rfl, rfl, fun _ => rfl, fun _ => rfl, by simp⟩
  | a :: rest, ht, ct, fi, tr => by
    rw [List.foldl_cons]
    by_cases hm : (alistLookup fi.handles (decayEosType a.type)).isSome = true
    · by_cases htr2 : tr.contains n2 = true
      · rw [processArgsStep_skip1 k n2 mi2 ht ct fi tr a htr2]
        exact argScan_preserves k n2 mi2 name hne rest ht _ fi tr
      · rw [processArgsStep_move k n2 mi2 ht ct fi tr a hm
          (by simpa using htr2)]
        obtain ⟨hkeys, hlook, hcount⟩ :=
          hMethods_insert_other fi (decayEosType a.type) n2 mi2 name hne hm
        obtain ⟨ht2, ct2, fi2, ext, heq, hkeys2, hmeth2, hcb2, hlook2, hcount2, hext⟩ :=
          argScan_preserves k n2 mi2 name hne rest (decayEosType a.type) _ _ (tr ++ [n2])
        refine ⟨ht2, ct2, fi2, [n2] ++ ext, ?_, ?_, ?_, ?_, ?_, ?_, ?_⟩
        · rw [heq, List.append_assoc]
        · rw [hkeys2]
          exact hkeys
        · exact hmeth2
        · exact hcb2
        · intro key
          rw [hlook2 key]
          exact hlook key
        · intro key
          rw [hcount2 key]
          exact hcount key
        · intro x hx
          rcases List.mem_append.mp hx with hx | hx
          · simpa using hx
          · exact hext x hx
    · rw [processArgsStep_skip2 k n2 mi2 ht ct fi tr a (by simpa using hm)]
      exact argScan_preserves k n2 mi2 name hne rest ht _ fi tr

end EosGen

namespace EosGen

theorem hMethods_cb_insert (fi : FileInfo) (A ct : String) (cb : CallbackInfo) :
    alistKeys ({ fi with handles := (alistModify fi.handles A
      (fun hh => { hh with callbacks := alistInsert hh.callbacks ct cb })) } :
        FileInfo).handles = alistKeys fi.handles ∧
    (∀ key, hMethods { fi with handles := (alistModify fi.handles A
      (fun hh => { hh with callbacks := alistInsert hh.callbacks ct cb })) } key =
      hMethods fi key) := by
  constructor
  · show (alistModify fi.handles A _).map (·.1) = _
    rw [alistModify_fst]
    rfl
  · intro key
    unfold hMethods
    by_cases hk : key = A
    · subst hk
      show (match alistLookup (alistModify fi.handles key _) key with
        | some hi => hi.methods | none => []) = _
      rw [alistModify_lookup_self]
      cases alistLookup fi.handles key with
      | none => rfl
      | some hi => rfl
    · show (match alistLookup (alistModify fi.handles A _) key with
        | some hi => hi.methods | none => []) = _
      rw [alistModify_lookup_ne _ _ _ hk]

theorem hMethods_file_cb (fi : FileInfo) (cbs : List (String × CallbackInfo)) :
    alistKeys ({ fi with callbacks := cbs } : FileInfo).handles =
      alistKeys fi.handles ∧
    (∀ key, hMethods { fi with callbacks := cbs } key = hMethods fi key) :=
  ⟨rfl, fun _ => rfl⟩

end EosGen


namespace EosGen

/-- Modifying one handle's callbacks leaves every per-handle method table
unchanged (transport form, for any file whose handles are the modified list). -/
theorem hMethods_of_modify (fi : FileInfo) (A : String) (g : HandleInfo → HandleInfo)
    (fj : FileInfo) (hj : fj.handles = alistModify fi.handles A g)
    (hg : ∀ hh, (g hh).methods = hh.methods) (key : String) :
    hMethods fj key = hMethods fi key := by
  unfold hMethods
  rw [hj]
  by_cases hk : key = A
  · subst hk
    rw [alistModify_lookup_self]
    cases alistLookup fi.handles key with
    | none => rfl
    | some hi => simp [hg]
  · rw [alistModify_lookup_ne fi.handles A g hk]

/-- Processing a method named differently from the traced one preserves
the single-file shape, the handle keys, the untouched method table, and
every name trace; the to-remove list grows only by that other name. -/
theorem processMethod_other (k name n2 : String) (mi2 : MethodInfo)
    (hne : n2 ≠ name) (st : MigState) (tr : List String) (fi : FileInfo)
    (hf : st.files = [(k, fi)]) (st2 : MigState) (tr2 : List String)
    (hok : processMethod k k st tr (n2, mi2) = Except.ok (st2, tr2)) :
    ∃ fi2 ext, st2.files = [(k, fi2)] ∧ tr2 = tr ++ ext ∧ (∀ x ∈ ext, x = n2) ∧
      alistKeys fi2.handles = alistKeys fi.handles ∧
      fi2.methods = fi.methods ∧
      (∀ key, alistLookup (hMethods fi2 key) name = alistLookup (hMethods fi key) name) ∧
      (∀ key, ((hMethods fi2 key).map (·.1)).count name =
        ((hMethods fi key).map (·.1)).count name) := by
  unfold processMethod at hok
  simp only [] at hok
  by_cases b1 : (pyIn "_Get" n2 && pyEndswith n2 "Interface") = true
  · rw [if_pos b1] at hok
    simp only [Except.ok.injEq, Prod.mk.injEq] at hok
    obtain ⟨h1, h2⟩ := hok
    refine ⟨fi, [n2], ?_, h2.symm, by simp, rfl, rfl, fun _ => rfl, fun _ => rfl⟩
    rw [← h1]
    exact hf
  · rw [if_neg b1, hf] at hok
    obtain ⟨ht2, ct2, fi2a, ext1, heq, hkeys, hmeth, hcb, hlook, hcount, hext⟩ :=
      argScan_preserves k n2 mi2 name hne mi2.args "" "" fi tr
    rw [heq] at hok
    by_cases brel : pyEndswith n2 "_Release" = true
    · rw [if_pos brel] at hok
      simp only [Except.ok.injEq, Prod.mk.injEq] at hok
      obtain ⟨h1, h2⟩ := hok
      refine ⟨fi2a, ext1 ++ [n2], ?_, ?_, ?_, hkeys, hmeth, hlook, hcount⟩
      · rw [← h1]
      · rw [← h2, List.append_assoc]
      · intro x hx
        rcases List.mem_append.mp hx with hx | hx
        · exact hext x hx
        · simpa using hx
    · rw [if_neg brel] at hok
      by_cases bcb : (!ht2.data.isEmpty && !ct2.data.isEmpty) = true
      · rw [if_pos bcb, fileCallbacks_single] at hok
        cases hcl : alistLookup fi2a.callbacks ct2 with
        | none =>
          rw [hcl] at hok
          cases hok
        | some cb =>
          rw [hcl] at hok
          simp only [alistModify_single, Except.ok.injEq, Prod.mk.injEq] at hok
          obtain ⟨h1, h2⟩ := hok
          rw [← h1, ← h2]
          refine ⟨_, ext1, rfl, rfl, hext, ?_, hmeth, ?_, ?_⟩
          · exact (alistModify_fst fi2a.handles ht2 _).trans hkeys
          · intro key
            refine Eq.trans (congrArg (fun (l : List (String × MethodInfo)) => alistLookup l name) ?_) (hlook key)
            exact hMethods_of_modify fi2a ht2
              (fun hh => { hh with callbacks := alistInsert hh.callbacks ct2 cb })
              _ rfl (fun hh => rfl) key
          · intro key
            refine Eq.trans (congrArg (fun (l : List (String × MethodInfo)) => (l.map (fun x => x.1)).count name) ?_)
              (hcount key)
            exact hMethods_of_modify fi2a ht2
              (fun hh => { hh with callbacks := alistInsert hh.callbacks ct2 cb })
              _ rfl (fun hh => rfl) key
      · rw [if_neg bcb] at hok
        simp only [Except.ok.injEq, Prod.mk.injEq] at hok
        obtain ⟨h1, h2⟩ := hok
        refine ⟨fi2a, ext1, ?_, h2.symm, hext, hkeys, hmeth, hlook, hcount⟩
        rw [← h1]

end EosGen

namespace EosGen

/-- After the move, handle `h` owns `name` exactly once and nobody
else does; keys and free methods are untouched. -/
theorem insFile_facts (fi : FileInfo) (h name : String) (mi : MethodInfo)
    (hi : HandleInfo) (hl : alistLookup fi.handles h = some hi)
    (hclean : ∀ key, name ∉ (hMethods fi key).map (·.1)) :
    alistKeys (insFile fi h name mi).handles = alistKeys fi.handles ∧
    (insFile fi h name mi).methods = fi.methods ∧
    alistLookup (hMethods (insFile fi h name mi) h) name = some mi ∧
    ((hMethods (insFile fi h name mi) h).map (·.1)).count name = 1 ∧
    (∀ key, key ≠ h → name ∉ (hMethods (insFile fi h name mi) key).map (·.1)) := by
  have hmh : hMethods (insFile fi h name mi) h = alistInsert hi.methods name mi := by
    unfold hMethods insFile
    rw [alistModify_lookup_self, hl]
    rfl
  have hclean_h : name ∉ hi.methods.map (·.1) := by
    have hc := hclean h
    unfold hMethods at hc
    rw [hl] at hc
    exact hc
  refine ⟨?_, rfl, ?_, ?_, ?_⟩
  · exact alistModify_fst fi.handles h _
  · rw [hmh]
    exact alistLookup_insert_self hi.methods name mi
  · rw [hmh, alistInsert_fst_of_not_mem mi hclean_h, List.count_append,
      List.count_eq_zero.mpr hclean_h]
    simp
  · intro key hk
    have he : hMethods (insFile fi h name mi) key = hMethods fi key := by
      unfold hMethods insFile
      rw [alistModify_lookup_ne fi.handles h _ hk]
    rw [he]
    exact hclean key

/-- The same facts survive the callback move into handle `h` (which
only touches the handle's callback table) and any change to the file's
free callback table. -/
theorem insFile_cb_facts (fi : FileInfo) (h name ct : String) (mi : MethodInfo)
    (cb : CallbackInfo) (hi : HandleInfo) (hl : alistLookup fi.handles h = some hi)
    (hclean : ∀ key, name ∉ (hMethods fi key).map (·.1))
    (fj : FileInfo)
    (hj : fj.handles = alistModify (insFile fi h name mi).handles h
      (fun hh => { hh with callbacks := alistInsert hh.callbacks ct cb }))
    (hjm : fj.methods = fi.methods) :
    alistKeys fj.handles = alistKeys fi.handles ∧
    fj.methods = fi.methods ∧
    alistLookup (hMethods fj h) name = some mi ∧
    ((hMethods fj h).map (·.1)).count name = 1 ∧
    (∀ key, key ≠ h → name ∉ (hMethods fj key).map (·.1)) := by
  obtain ⟨hk0, _, hl0, hc0, ha0⟩ := insFile_facts fi h name mi hi hl hclean
  have hmeq : ∀ key, hMethods fj key = hMethods (insFile fi h name mi) key :=
    fun key => hMethods_of_modify (insFile fi h name mi) h _ fj hj (fun hh => rfl) key
  refine ⟨?_, hjm, ?_, ?_, ?_⟩
  · rw [hj]
    exact (alistModify_fst (insFile fi h name mi).handles h _).trans hk0
  · rw [hmeq h]
    exact hl0
  · rw [hmeq h]
    exact hc0
  · intro key hk
    rw [hmeq key]
    exact ha0 key hk

/-- Processing the traced method itself moves it into the first handle
whose type matches an argument, and marks it for removal from the free
bucket. -/
theorem processMethod_name (k name : String) (mi : MethodInfo) (h : String)
    (st : MigState) (tr : List String) (fi : FileInfo)
    (hf : st.files = [(k, fi)])
    (hnotif : (pyIn "_Get" name && pyEndswith name "Interface") = false)
    (hnotrel : pyEndswith name "_Release" = false)
    (htr : tr.contains name = false)
    (hfirst : firstMatchingHandle fi.handles mi.args = some h)
    (hclean : ∀ key, name ∉ (hMethods fi key).map (·.1))
    (st2 : MigState) (tr2 : List String)
    (hok : processMethod k k st tr (name, mi) = Except.ok (st2, tr2)) :
    ∃ fi2, st2.files = [(k, fi2)] ∧ tr2 = tr ++ [name] ∧
      alistKeys fi2.handles = alistKeys fi.handles ∧
      fi2.methods = fi.methods ∧
      alistLookup (hMethods fi2 h) name = some mi ∧
      ((hMethods fi2 h).map (·.1)).count name = 1 ∧
      (∀ key, key ≠ h → name ∉ (hMethods fi2 key).map (·.1)) := by
  have hfind : (mi.args.map (fun a => decayEosType a.type)).find?
      (fun t => (alistLookup fi.handles t).isSome) = some h := hfirst
  have hps := List.find?_some hfind
  obtain ⟨hi, hl⟩ := Option.isSome_iff_exists.mp hps
  unfold processMethod at hok
  simp only [] at hok
  have b1 : ¬((pyIn "_Get" name && pyEndswith name "Interface") = true) := by
    simp [hnotif]
  rw [if_neg b1, hf] at hok
  obtain ⟨ct2, heq⟩ := argScan_move k name mi h mi.args "" fi tr htr hfind
  rw [heq] at hok
  have brel : ¬(pyEndswith name "_Release" = true) := by
    simp [hnotrel]
  rw [if_neg brel] at hok
  by_cases bcb : (!h.data.isEmpty && !ct2.data.isEmpty) = true
  · rw [if_pos bcb, fileCallbacks_single] at hok
    cases hcl : alistLookup ({ fi with handles := alistModify fi.handles h (fun hh =>
        { hh with methods := alistInsert hh.methods name mi }) } : FileInfo).callbacks ct2 with
    | none =>
      rw [hcl] at hok
      cases hok
    | some cb =>
      rw [hcl] at hok
      simp only [alistModify_single, Except.ok.injEq, Prod.mk.injEq] at hok
      obtain ⟨h1, h2⟩ := hok
      rw [← h1, ← h2]
      refine ⟨_, rfl, rfl, ?_⟩
      exact insFile_cb_facts fi h name ct2 mi cb hi hl hclean _ rfl rfl
  · rw [if_neg bcb] at hok
    simp only [Except.ok.injEq, Prod.mk.injEq] at hok
    obtain ⟨h1, h2⟩ := hok
    rw [← h1, ← h2]
    refine ⟨_, rfl, rfl, ?_⟩
    exact insFile_facts fi h name mi hi hl hclean

end EosGen

namespace EosGen

/-- Equal trace counts transport absence of a name. -/
theorem notMem_of_count_eq {name : String} {l l2 : List String}
    (hc : l2.count name = l.count name) (h : name ∉ l) : name ∉ l2 :=
  List.count_eq_zero.mp (hc.trans (List.count_eq_zero.mpr h))

/-- Membership absence gives a false `contains`. -/
theorem contains_eq_false_of_not_mem {l : List String} {a : String} (h : a ∉ l) :
    l.contains a = false := by
  induction l with
  | nil => rfl
  | cons b t ih =>
    have hab : a ≠ b := fun he => h (he ▸ List.mem_cons_self b t)
    have hat : a ∉ t := fun hm => h (List.mem_cons_of_mem b hm)
    simp [List.contains_cons, ih hat, hab, hat]

/-- The per-handle method tables depend only on the handle table. -/
theorem hMethods_congr (fi fj : FileInfo) (hj : fj.handles = fi.handles)
    (key : String) : hMethods fj key = hMethods fi key := by
  unfold hMethods
  rw [hj]

/-- The first matching handle depends only on the handle-table keys. -/
theorem firstMatchingHandle_keys (hs hs2 : List (String × HandleInfo)) (args : List Arg)
    (hkeys : alistKeys hs2 = alistKeys hs) :
    firstMatchingHandle hs2 args = firstMatchingHandle hs args := by
  unfold firstMatchingHandle
  have hp : (fun t => (alistLookup hs2 t).isSome) = (fun t => (alistLookup hs t).isSome) := by
    funext t
    by_cases hm : t ∈ alistKeys hs
    · have h2 : t ∈ alistKeys hs2 := hkeys ▸ hm
      rw [(alistLookup_isSome_iff hs2 t).mpr h2, (alistLookup_isSome_iff hs t).mpr hm]
    · have h2 : t ∉ alistKeys hs2 := fun hx => hm (hkeys ▸ hx)
      have e1 : (alistLookup hs t).isSome = false := by
        cases he : (alistLookup hs t).isSome
        · rfl
        · exact absurd ((alistLookup_isSome_iff hs t).mp he) hm
      have e2 : (alistLookup hs2 t).isSome = false := by
        cases he : (alistLookup hs2 t).isSome
        · rfl
        · exact absurd ((alistLookup_isSome_iff hs2 t).mp he) h2
      rw [e1, e2]
  rw [hp]

/-- Phase A: folding methods named differently from the traced one
preserves the pre-processing invariant. -/
theorem pmFold_pre (k name : String) (f : FileInfo) :
    ∀ (ms : List (String × MethodInfo)) (st : MigState) (tr : List String)
      (out : MigState × List String),
    (∀ p ∈ ms, p.1 ≠ name) → c9Pre k f name st tr →
    List.foldlM (fun (p : MigState × List String) nm => processMethod k k p.1 p.2 nm)
      (st, tr) ms = Except.ok out →
    c9Pre k f name out.1 out.2
  | [], st, tr, out, _, hpre, hok => by
    simp only [List.foldlM, pure, Except.pure] at hok
    cases hok
    exact hpre
  | (n2, mi2) :: rest, st, tr, out, hA, hpre, hok => by
    rw [List.foldlM_cons] at hok
    obtain ⟨p2, h1, h2⟩ := exceptBind_ok hok
    obtain ⟨fi1, hfiles, hkeys, hmeth, habs, htr⟩ := hpre
    have hne : n2 ≠ name := hA (n2, mi2) (List.mem_cons_self _ _)
    obtain ⟨fi2, ext, hfiles2, htr2, hextv, hkeys2, hmeth2, hlook2, hcount2⟩ :=
      processMethod_other k name n2 mi2 hne st tr fi1 hfiles p2.1 p2.2 h1
    have hpre2 : c9Pre k f name p2.1 p2.2 := by
      refine ⟨fi2, hfiles2, hkeys2.trans hkeys, hmeth2.trans hmeth, ?_, ?_⟩
      · intro key
        exact notMem_of_count_eq (hcount2 key) (habs key)
      · rw [htr2]
        intro hm
        rcases List.mem_append.mp hm with hm1 | hm1
        · exact htr hm1
        · exact hne (hextv name hm1).symm
    exact pmFold_pre k name f rest p2.1 p2.2 out
      (fun p hp => hA p (List.mem_cons_of_mem _ hp)) hpre2 h2

/-- Phase B: after the traced method has been placed, the remaining
methods leave its placement untouched. -/
theorem pmFold_post (k name : String) (f : FileInfo) (mi : MethodInfo) (h : String) :
    ∀ (ms : List (String × MethodInfo)) (st : MigState) (tr : List String)
      (out : MigState × List String),
    (∀ p ∈ ms, p.1 ≠ name) → c9Post k f name mi h st tr →
    List.foldlM (fun (p : MigState × List String) nm => processMethod k k p.1 p.2 nm)
      (st, tr) ms = Except.ok out →
    c9Post k f name mi h out.1 out.2
  | [], st, tr, out, _, hpost, hok => by
    simp only [List.foldlM, pure, Except.pure] at hok
    cases hok
    exact hpost
  | (n2, mi2) :: rest, st, tr, out, hA, hpost, hok => by
    rw [List.foldlM_cons] at hok
    obtain ⟨p2, h1, h2⟩ := exceptBind_ok hok
    obtain ⟨fi1, hfiles, hkeys, hmeth, hlk, hct, habs, htrc⟩ := hpost
    have hne : n2 ≠ name := hA (n2, mi2) (List.mem_cons_self _ _)
    obtain ⟨fi2, ext, hfiles2, htr2, hextv, hkeys2, hmeth2, hlook2, hcount2⟩ :=
      processMethod_other k name n2 mi2 hne st tr fi1 hfiles p2.1 p2.2 h1
    have hpost2 : c9Post k f name mi h p2.1 p2.2 := by
      refine ⟨fi2, hfiles2, hkeys2.trans hkeys, hmeth2.trans hmeth,
        (hlook2 h).trans hlk, (hcount2 h).trans hct, ?_, ?_⟩
      · intro key hk
        exact notMem_of_count_eq (hcount2 key) (habs key hk)
      · have hz : ext.count name = 0 :=
          List.count_eq_zero.mpr (fun hm => hne (hextv name hm).symm)
        rw [htr2, List.count_append, hz, htrc]
    exact pmFold_post k name f mi h rest p2.1 p2.2 out
      (fun p hp => hA p (List.mem_cons_of_mem _ hp)) hpost2 h2

/-- The whole method fold: before the traced method nothing owns it,
it is then placed on the first matching handle, and the rest of the
fold preserves the placement. -/
theorem pmFold_split (k name : String) (f : FileInfo) (mi : MethodInfo) (h : String)
    (pre post : List (String × MethodInfo))
    (hpre_ne : ∀ p ∈ pre, p.1 ≠ name) (hpost_ne : ∀ p ∈ post, p.1 ≠ name)
    (hnotif : (pyIn "_Get" name && pyEndswith name "Interface") = false)
    (hnotrel : pyEndswith name "_Release" = false)
    (hfirst : firstMatchingHandle f.handles mi.args = some h)
    (st : MigState) (tr : List String) (out : MigState × List String)
    (hc : c9Pre k f name st tr)
    (hok : List.foldlM (fun (p : MigState × List String) nm => processMethod k k p.1 p.2 nm)
      (st, tr) (pre ++ (name, mi) :: post) = Except.ok out) :
    c9Post k f name mi h out.1 out.2 := by
  rw [List.foldlM_append] at hok
  obtain ⟨p1, h1, h2⟩ := exceptBind_ok hok
  have hc1 : c9Pre k f name p1.1 p1.2 := pmFold_pre k name f pre st tr p1 hpre_ne hc h1
  rw [List.foldlM_cons] at h2
  obtain ⟨p2, h3, h4⟩ := exceptBind_ok h2
  obtain ⟨fi1, hfiles, hkeys, hmeth, habs, htr⟩ := hc1
  have hfirst1 : firstMatchingHandle fi1.handles mi.args = some h := by
    rw [firstMatchingHandle_keys f.handles fi1.handles mi.args hkeys]
    exact hfirst
  obtain ⟨fi2, hfiles2, htr2, hkeys2, hmeth2, hlookh, hcnth, habs2⟩ :=
    processMethod_name k name mi h p1.1 p1.2 fi1 hfiles hnotif hnotrel
      (contains_eq_false_of_not_mem htr) hfirst1 habs p2.1 p2.2 h3
  have hcpost : c9Post k f name mi h p2.1 p2.2 := by
    refine ⟨fi2, hfiles2, hkeys2.trans hkeys, hmeth2.trans hmeth, hlookh, hcnth, habs2, ?_⟩
    rw [htr2, List.count_append, List.count_eq_zero.mpr htr]
    simp
  exact pmFold_post k name f mi h post p2.1 p2.2 out hpost_ne hcpost h4

/-- Popping the traced names removes exactly their multiplicity from
the free-method bucket and leaves the handle table alone. -/
theorem popMethods_trace (k name : String) :
    ∀ (tr : List String) (fi : FileInfo) (out : List (String × FileInfo)),
    popMethods [(k, fi)] k tr = Except.ok out →
    ∃ fi2, out = [(k, fi2)] ∧ fi2.handles = fi.handles ∧
      (fi2.methods.map (·.1)).count name + tr.count name = (fi.methods.map (·.1)).count name
  | [], fi, out, hok => by
    simp only [popMethods, List.foldlM, pure, Except.pure] at hok
    cases hok
    exact ⟨fi, rfl, rfl, by simp⟩
  | m :: rest, fi, out, hok => by
    unfold popMethods at hok
    rw [List.foldlM_cons] at hok
    obtain ⟨fs2, h1, h2⟩ := exceptBind_ok hok
    have hlk : alistLookup [(k, fi)] k = some fi := by simp [alistLookup]
    simp only [hlk] at h1
    cases hpop : alistPop fi.methods m with
    | error e =>
      rw [hpop] at h1
      simp [Except.map] at h1
    | ok ms2 =>
      rw [hpop] at h1
      simp only [Except.map, Except.ok.injEq] at h1
      rw [alistModify_single] at h1
      subst h1
      obtain ⟨fi2, hout, hh, hc⟩ :=
        popMethods_trace k name rest { fi with methods := ms2 } out h2
      simp only [] at hc
      refine ⟨fi2, hout, hh, ?_⟩
      by_cases hm : m = name
      · subst hm
        rw [List.count_cons_self]
        have hp := alistPop_count m fi.methods ms2 hpop
        omega
      · rw [List.count_cons_of_ne (fun he => hm he.symm)]
        have hp := alistPop_count_ne m (fun he => hm he.symm) fi.methods ms2 hpop
        omega

/-- One full pass of the single file against itself: the traced method
ends on its first matching handle, once, and is removed from the
free-method bucket. -/
theorem processFilePair_c9 (k name : String) (f : FileInfo) (mi : MethodInfo) (h : String)
    (pre post : List (String × MethodInfo))
    (hsplit : f.methods = pre ++ (name, mi) :: post)
    (hpre_ne : ∀ p ∈ pre, p.1 ≠ name) (hpost_ne : ∀ p ∈ post, p.1 ≠ name)
    (hcount1 : (f.methods.map (·.1)).count name = 1)
    (hnotif : (pyIn "_Get" name && pyEndswith name "Interface") = false)
    (hnotrel : pyEndswith name "_Release" = false)
    (hfirst : firstMatchingHandle f.handles mi.args = some h)
    (hcleanH : ∀ key, name ∉ (hMethods f key).map (·.1))
    (stM : MigState)
    (hpf : processFilePair k k ⟨[(k, f)], initialInterfaces, []⟩ = Except.ok stM) :
    ∃ fiP, stM.files = [(k, fiP)] ∧ alistKeys fiP.handles = alistKeys f.handles ∧
      alistLookup (hMethods fiP h) name = some mi ∧
      ((hMethods fiP h).map (·.1)).count name = 1 ∧
      (∀ key, key ≠ h → name ∉ (hMethods fiP key).map (·.1)) ∧
      name ∉ fiP.methods.map (·.1) := by
  have hpf2 : (Bind.bind (List.foldlM
      (fun (p : MigState × List String) nm => processMethod k k p.1 p.2 nm)
      ((⟨[(k, f)], initialInterfaces, []⟩ : MigState), ([] : List String))
      (fileMethods [(k, f)] k))
      (fun p => Bind.bind (popMethods p.1.files k p.2)
        (fun files2 => Except.ok { p.1 with files := files2 }))) = Except.ok stM := hpf
  rw [fileMethods_single, hsplit] at hpf2
  obtain ⟨p1, hfold, hrest⟩ := exceptBind_ok hpf2
  have hpost : c9Post k f name mi h p1.1 p1.2 :=
    pmFold_split k name f mi h pre post hpre_ne hpost_ne hnotif hnotrel hfirst
      ⟨[(k, f)], initialInterfaces, []⟩ [] p1
      ⟨f, rfl, rfl, rfl, hcleanH, by simp⟩ hfold
  have hrest2 : Bind.bind (popMethods p1.1.files k p1.2)
      (fun files2 => Except.ok { p1.1 with files := files2 }) = Except.ok stM := hrest
  obtain ⟨files2, hpop, hfin3⟩ := exceptBind_ok hrest2
  have hstM : { p1.1 with files := files2 } = stM := Except.ok.inj hfin3
  obtain ⟨fiF, hfilesF, hkeysF, hmethF, hlkF, hctF, habsF, htrcF⟩ := hpost
  rw [hfilesF] at hpop
  obtain ⟨fiP, hout, hhP, hcP⟩ := popMethods_trace k name p1.2 fiF files2 hpop
  have hfilesM : stM.files = [(k, fiP)] := by
    rw [← hstM]
    exact hout
  have hnameP : name ∉ fiP.methods.map (·.1) := by
    have hcf : (fiF.methods.map (·.1)).count name = 1 := by
      rw [hmethF]
      exact hcount1
    rw [htrcF, hcf] at hcP
    exact List.count_eq_zero.mp (by omega)
  refine ⟨fiP, hfilesM, ?_, ?_, ?_, ?_, hnameP⟩
  · exact (congrArg alistKeys hhP).trans hkeysF
  · rw [hMethods_congr fiF fiP hhP h]
    exact hlkF
  · rw [hMethods_congr fiF fiP hhP h]
    exact hctF
  · intro key hk
    rw [hMethods_congr fiF fiP hhP key]
    exact habsF key hk

end EosGen

namespace EosGen

/-- C9: with a single handle table, a free method lands on the first
handle whose name matches a decayed argument type, exactly once, and
leaves the unhandled bucket. -/
theorem c9_single_table_first_match (k : String) (f : FileInfo) (name : String)
    (mi : MethodInfo) (h : String) (st : ConsResult)
    (hmnd : (f.methods.map (·.1)).Nodup) (hhnd : (f.handles.map (·.1)).Nodup)
    (hmem : (name, mi) ∈ f.methods)
    (hnotif : (pyIn "_Get" name && pyEndswith name "Interface") = false)
    (hnotrel : pyEndswith name "_Release" = false)
    (hfirst : firstMatchingHandle f.handles mi.args = some h)
    (hclean : ∀ p ∈ f.handles, name ∉ p.2.methods.map (·.1))
    (hok : consolidate [(k, f)] = Except.ok st) :
    (∃ hi, alistLookup st.handles h = some hi ∧ alistLookup hi.methods name = some mi ∧
      (hi.methods.map (·.1)).count name = 1) ∧
    (∀ p ∈ st.handles, p.1 ≠ h → name ∉ p.2.methods.map (·.1)) ∧
    name ∉ st.unhandledMethods.map (·.1) := by
  obtain ⟨pre, post, hsplit⟩ := List.append_of_mem hmem
  have hmapsplit : f.methods.map (·.1) = pre.map (·.1) ++ name :: post.map (·.1) := by
    rw [hsplit]
    simp
  have hmnd2 := hmnd
  rw [hmapsplit] at hmnd2
  obtain ⟨hnd1, hnd2, hdisj⟩ := List.nodup_append.mp hmnd2
  obtain ⟨hnpost, hndpost⟩ := List.nodup_cons.mp hnd2
  have hnpre : name ∉ pre.map (·.1) := fun hm => hdisj hm (List.mem_cons_self _ _)
  have hpre_ne : ∀ p ∈ pre, p.1 ≠ name :=
    fun p hp he => hnpre (List.mem_map.mpr ⟨p, hp, he⟩)
  have hpost_ne : ∀ p ∈ post, p.1 ≠ name :=
    fun p hp he => hnpost (List.mem_map.mpr ⟨p, hp, he⟩)
  have hcount1 : (f.methods.map (·.1)).count name = 1 := by
    rw [hmapsplit, List.count_append, List.count_eq_zero.mpr hnpre, List.count_cons_self,
      List.count_eq_zero.mpr hnpost]
  have hcleanH : ∀ key, name ∉ (hMethods f key).map (·.1) := by
    intro key
    unfold hMethods
    cases hl : alistLookup f.handles key with
    | none => simp
    | some hi => exact hclean (key, hi) (alistLookup_mem hl)
  have hok2 : (Bind.bind (migrate [(k, f)]) (fun stm => Except.ok
      ((⟨stm.interfaces,
        stm.files.foldl (fun acc fi =>
          fi.2.handles.foldl (fun a p => alistInsert a p.1 p.2) acc) [],
        stm.files.foldl (fun acc fi =>
          fi.2.structs.foldl (fun a p => alistInsert a p.1 p.2) acc) [],
        stm.releaseMethods,
        stm.files.foldl (fun acc fi =>
          fi.2.methods.foldl (fun a p => alistInsert a p.1 p.2) acc) [],
        stm.files.foldl (fun acc fi =>
          fi.2.callbacks.foldl (fun a p => alistInsert a p.1 p.2) acc) []⟩
        : ConsResult)))) = Except.ok st := hok
  obtain ⟨stM, hmig, hfin⟩ := exceptBind_ok hok2
  have hfin2 := Except.ok.inj hfin
  have hmig2 : ((processFilePair k k ⟨[(k, f)], initialInterfaces, []⟩ >>= fun s => pure s) >>=
      fun s2 => pure s2) = Except.ok stM := hmig
  obtain ⟨sA, hA1, hA2⟩ := exceptBind_ok hmig2
  have hA3 : sA = stM := Except.ok.inj hA2
  obtain ⟨sB, hB1, hB2⟩ := exceptBind_ok hA1
  have hB3 : sB = sA := Except.ok.inj hB2
  have hpf : processFilePair k k ⟨[(k, f)], initialInterfaces, []⟩ = Except.ok stM := by
    rw [← hA3, ← hB3]
    exact hB1
  obtain ⟨fiP, hfilesM, hkeysP, hlkP, hctP, habsP, hnameP⟩ :=
    processFilePair_c9 k name f mi h pre post hsplit hpre_ne hpost_ne hcount1
      hnotif hnotrel hfirst hcleanH stM hpf
  have hndP : (fiP.handles.map (·.1)).Nodup := by
    have h9 : (fiP.handles.map (·.1)) = alistKeys f.handles := hkeysP
    rw [h9]
    exact hhnd
  have hmemh : h ∈ alistKeys f.handles := by
    have hfind : (mi.args.map (fun a => decayEosType a.type)).find?
        (fun t => (alistLookup f.handles t).isSome) = some h := hfirst
    have hp := List.find?_some hfind
    exact (alistLookup_isSome_iff f.handles h).mp hp
  have hmemhP : h ∈ alistKeys fiP.handles := by
    rw [hkeysP]
    exact hmemh
  obtain ⟨hiP, hlP⟩ :=
    Option.isSome_iff_exists.mp ((alistLookup_isSome_iff fiP.handles h).mpr hmemhP)
  have hhm : hMethods fiP h = hiP.methods := by
    unfold hMethods
    rw [hlP]
  have hH : stM.files.foldl (fun acc fi =>
      fi.2.handles.foldl (fun a p => alistInsert a p.1 p.2) acc) [] = fiP.handles := by
    rw [hfilesM, List.foldl_cons, List.foldl_nil]
    have h8 := merge_fold_self fiP.handles [] (by simp) hndP
    simpa using h8
  have hUM : name ∉ (stM.files.foldl (fun acc fi =>
      fi.2.methods.foldl (fun a p => alistInsert a p.1 p.2) acc) []).map (·.1) := by
    rw [hfilesM, List.foldl_cons, List.foldl_nil]
    intro hm
    have hm2 : name ∈ ((fiP.methods.foldl (fun a p => alistInsert a p.1 p.2) []).map (·.1)) := by
      simpa using hm
    rcases merge_fold_names fiP.methods [] name hm2 with h0 | h0
    · simp at h0
    · exact hnameP h0
  have e1 : st.handles = fiP.handles := by
    rw [← hfin2]
    exact hH
  have e3 : name ∉ st.unhandledMethods.map (·.1) := by
    rw [← hfin2]
    exact hUM
  refine ⟨⟨hiP, ?_, ?_, ?_⟩, ?_, e3⟩
  · rw [e1]
    exact hlP
  · rw [← hhm]
    exact hlkP
  · rw [← hhm]
    exact hctP
  · intro p hp hne
    rw [e1] at hp
    have hlp := alistLookup_of_mem_nodup hndP hp
    have hmp : hMethods fiP p.1 = p.2.methods := by
      unfold hMethods
      rw [hlp]
    rw [← hmp]
    exact habsP p.1 hne

/-- C9 counterexample: with handles declared in two files, the method
EOS_M(EOS_HB, EOS_HA) is owned by EOS_HA — the handle of its SECOND
matching argument — because file "a" (declaring EOS_HA) is migrated
first; the global first-match rule of the claim names EOS_HB. -/
theorem c9_counterexample :
    consolidate twoFileHandles = Except.ok
      ⟨initialInterfaces,
       [("EOS_HA", ⟨[("EOS_M", ⟨"void",
          [Arg.mk "EOS_HB" "X", Arg.mk "EOS_HA" "Y"]⟩)], [], []⟩),
        ("EOS_HB", emptyHandle)],
       [], [], [], []⟩ ∧
    firstMatchingHandle [("EOS_HA", emptyHandle), ("EOS_HB", emptyHandle)]
      [Arg.mk "EOS_HB" "X", Arg.mk "EOS_HA" "Y"] = some "EOS_HB" :=
  ⟨rfl, rfl⟩

/-- C9 witness: the single-table first-match theorem at a concrete
one-file input. -/
theorem c9_witness :
    consolidate oneFileHandles = Except.ok c9ConsOut ∧
    (∃ hi, alistLookup c9ConsOut.handles "EOS_HA" = some hi ∧
      alistLookup hi.methods "EOS_M" = some ⟨"void", [Arg.mk "EOS_HA" "H"]⟩ ∧
      (hi.methods.map (·.1)).count "EOS_M" = 1) ∧
    (∀ p ∈ c9ConsOut.handles, p.1 ≠ "EOS_HA" → "EOS_M" ∉ p.2.methods.map (·.1)) ∧
    "EOS_M" ∉ c9ConsOut.unhandledMethods.map (·.1) := by
  refine ⟨rfl, ?_⟩
  exact c9_single_table_first_match "test"
    ⟨[("EOS_HA", emptyHandle)], [("EOS_M", ⟨"void", [Arg.mk "EOS_HA" "H"]⟩)], [], [], []⟩
    "EOS_M" ⟨"void", [Arg.mk "EOS_HA" "H"]⟩ "EOS_HA" c9ConsOut
    (by decide) (by decide) (by decide) rfl rfl rfl (by decide) rfl

end EosGen
